import Mathlib

/-!
Verification of the persistence layer of `high-command-api` (`src/database.py`).

The development shallowly embeds the store as explicit lists of rows, JSON
payloads as an inductive value type with Python truthiness, and each
`Database` method as a pure function over the store.  Faults that the
Python code catches with `try/except` are modelled by an explicit fault
parameter: a single-record method takes a `Bool` (does the environment
raise anywhere before `commit`), a batch method takes an `Option Nat`
(index of the `cursor.execute` call that raises, if any).  A raised fault
means the transaction is rolled back, so the visible store is unchanged.
-/

/-- JSON values as stored in the `data` JSONB columns and received as
payloads.  Python `None` is `null`; objects keep insertion order. -/
inductive Json where
  | null : Json
  | bool : Bool → Json
  | num : Int → Json
  | str : String → Json
  | arr : List Json → Json
  | obj : List (String × Json) → Json

/-- Python truthiness of a JSON value (`if x:`). -/
def pyTruthy : Json → Bool
  | .null => false
  | .bool b => b
  | .num n => n != 0
  | .str s => s != ""
  | .arr xs => !xs.isEmpty
  | .obj fs => !fs.isEmpty

/-- First binding of a key in an object field list (Python dicts have
unique keys; lookup returns the first match). -/
def lookupField : List (String × Json) → String → Option Json
  | [], _ => none
  | (k2, v) :: rest, k => if k2 = k then some v else lookupField rest k

/-- `d.get(k)`: `some v` when the key is present (its value may be `null`,
i.e. Python `None`), `none` when absent or when the value is not a dict. -/
def Json.get : Json → String → Option Json
  | .obj fields, k => lookupField fields k
  | _, _ => none

/-- Python truthiness of a `dict.get` result (`None` when absent). -/
def truthyOpt : Option Json → Bool
  | none => false
  | some j => pyTruthy j

mutual
/-- Python `==` on JSON values. -/
def Json.beq : Json → Json → Bool
  | .null, .null => true
  | .bool a, .bool b => a == b
  | .num a, .num b => a == b
  | .str a, .str b => a == b
  | .arr xs, .arr ys => beqJsonList xs ys
  | .obj xs, .obj ys => beqJsonFields xs ys
  | _, _ => false

def beqJsonList : List Json → List Json → Bool
  | [], [] => true
  | x :: xs, y :: ys => Json.beq x y && beqJsonList xs ys
  | _, _ => false

def beqJsonFields : List (String × Json) → List (String × Json) → Bool
  | [], [] => true
  | (k1, v1) :: xs, (k2, v2) :: ys => k1 == k2 && Json.beq v1 v2 && beqJsonFields xs ys
  | _, _ => false
end


/-! ### Model of `_parse_expiration_time`

`_parse_expiration_time` calls `datetime.fromisoformat` after replacing
every `Z` with `+00:00`, defaults a naive result to UTC, and returns
`None` on `ValueError`/`AttributeError` (non-string input).  Instants are
modelled as `Int` seconds since the Unix epoch; the library parser is
modelled for the `YYYY-MM-DD[THH:MM[:SS]][±HH:MM]` shapes, with strings
outside this subset treated as unparseable. -/

/-- Value of a decimal digit character. -/
def digitVal (c : Char) : Option Nat :=
  if c.isDigit then some (c.toNat - 48) else none

def digits2 (a b : Char) : Option Nat := do
  let x ← digitVal a
  let y ← digitVal b
  pure (10 * x + y)

def digits4 (a b c d : Char) : Option Nat := do
  let x ← digits2 a b
  let y ← digits2 c d
  pure (100 * x + y)

def isLeapYear (y : Int) : Bool :=
  y % 4 = 0 && (y % 100 != 0 || y % 400 = 0)

def daysInMonth (y m : Int) : Int :=
  if m = 2 then (if isLeapYear y then 29 else 28)
  else if m = 4 ∨ m = 6 ∨ m = 9 ∨ m = 11 then 30
  else 31

/-- Days from 1970-01-01 to year/month/day (proleptic Gregorian,
Hinnant's civil-days formula). -/
def daysFromCivil (y m d : Int) : Int :=
  let y2 := if m ≤ 2 then y - 1 else y
  let era := (if 0 ≤ y2 then y2 else y2 - 399) / 400
  let yoe := y2 - era * 400
  let doy := (153 * ((m + 9) % 12) + 2) / 5 + (d - 1)
  let doe := yoe * 365 + yoe / 4 - yoe / 100 + doy
  era * 146097 + doe - 719468

/-- UTC-offset suffix in seconds; an absent suffix means a naive
datetime, which the source normalizes to UTC (offset 0). -/
def parseTzOffset : List Char → Option Int
  | [] => some 0
  | '+' :: h1 :: h2 :: ':' :: m1 :: m2 :: [] => do
      let h ← digits2 h1 h2
      let m ← digits2 m1 m2
      if h < 24 && m < 60 then some (Int.ofNat (h * 3600 + m * 60)) else none
  | '-' :: h1 :: h2 :: ':' :: m1 :: m2 :: [] => do
      let h ← digits2 h1 h2
      let m ← digits2 m1 m2
      if h < 24 && m < 60 then some (-Int.ofNat (h * 3600 + m * 60)) else none
  | _ => none

/-- Time-of-day part: seconds of day together with the UTC offset. -/
def parseTimeOfDay : List Char → Option (Int × Int)
  | [] => some (0, 0)
  | 'T' :: h1 :: h2 :: ':' :: m1 :: m2 :: rest => do
      let h ← digits2 h1 h2
      let mi ← digits2 m1 m2
      if 24 ≤ h ∨ 60 ≤ mi then none
      else
        match rest with
        | ':' :: s1 :: s2 :: rest2 => do
            let s ← digits2 s1 s2
            if 60 ≤ s then none
            else do
              let off ← parseTzOffset rest2
              pure (Int.ofNat (h * 3600 + mi * 60 + s), off)
        | _ => do
            let off ← parseTzOffset rest
            pure (Int.ofNat (h * 3600 + mi * 60), off)
  | _ => none

/-- `datetime.fromisoformat` (modelled subset), as epoch seconds in UTC. -/
def fromIsoformat : List Char → Option Int
  | y1 :: y2 :: y3 :: y4 :: '-' :: m1 :: m2 :: '-' :: d1 :: d2 :: rest => do
      let y ← digits4 y1 y2 y3 y4
      let m ← digits2 m1 m2
      let d ← digits2 d1 d2
      if m < 1 ∨ 12 < m then none
      else if d < 1 ∨ daysInMonth (Int.ofNat y) (Int.ofNat m) < Int.ofNat d then none
      else do
        let (secs, off) ← parseTimeOfDay rest
        pure (daysFromCivil (Int.ofNat y) (Int.ofNat m) (Int.ofNat d) * 86400 + secs - off)
  | _ => none

/-- `s.replace('Z', '+00:00')` on the character list. -/
def replaceZ : List Char → List Char
  | [] => []
  | c :: rest =>
      if c = 'Z' then '+' :: '0' :: '0' :: ':' :: '0' :: '0' :: replaceZ rest
      else c :: replaceZ rest

/-- `Database._parse_expiration_time`: parse an ISO-8601 string to a UTC
instant; `none` on parse failure (`ValueError`) or non-string input
(`AttributeError`). -/
def _parse_expiration_time : Json → Option Int
  | .str s => fromIsoformat (replaceZ s.toList)
  | _ => none


/-! ### Campaigns (`save_campaign`, `get_active_campaigns`)

Row timestamps (`CURRENT_TIMESTAMP`) and the expiry clock
(`datetime.now(timezone.utc)`) are both modelled as `Int` epoch seconds
and supplied explicitly, one consistent value per call. -/

structure CampaignRow where
  campaign_id : Int
  planet_index : Int
  status : String
  data : Json
  timestamp : Int

/-- The status derivation inside `save_campaign`: read `expiresAt`, and
when it is truthy try to parse it; an instant not after `now` means
`"expired"`, every other case means `"active"`. -/
def campaignStatus (data : Json) (now : Int) : String :=
  match data.get "expiresAt" with
  | some expiration_time =>
      if pyTruthy expiration_time then
        match _parse_expiration_time expiration_time with
        | some exp_dt => if now < exp_dt then "active" else "expired"
        | none => "active"
      else "active"
  | none => "active"

/-- `INSERT ... ON CONFLICT (campaign_id) DO UPDATE` for the campaigns
table. -/
def upsertCampaign (store : List CampaignRow) (cid pidx : Int) (status : String)
    (d : Json) (now : Int) : List CampaignRow :=
  if store.any (fun r => r.campaign_id = cid) then
    store.map (fun r =>
      if r.campaign_id = cid then
        { r with planet_index := pidx, status := status, data := d, timestamp := now }
      else r)
  else store ++ [⟨cid, pidx, status, d, now⟩]

/-- `Database.save_campaign`: derive the status from the payload at one
write-time `now`, then upsert; any fault is caught and reported as
`false` with the transaction rolled back. -/
def save_campaign (store : List CampaignRow) (campaign_id planet_index : Int)
    (data : Json) (now : Int) (fault : Bool) : List CampaignRow × Bool :=
  if fault then (store, false)
  else (upsertCampaign store campaign_id planet_index (campaignStatus data now) data now, true)

/-- The read-time re-check in `get_active_campaigns`: keep a campaign
unless its `expiresAt` is truthy, parses, and is not after `now`. -/
def stillActiveFilter (now : Int) (campaign : Json) : Bool :=
  match campaign.get "expiresAt" with
  | some expiration_time =>
      if pyTruthy expiration_time then
        match _parse_expiration_time expiration_time with
        | none => true
        | some exp_dt => decide (now < exp_dt)
      else true
  | none => true

/-- `Database.get_active_campaigns`: select rows with status literally
`"active"` ordered by timestamp descending, then re-filter by expiry at
the read-time `now`; any fault yields `[]`. -/
def get_active_campaigns (store : List CampaignRow) (now : Int) (fault : Bool) : List Json :=
  if fault then []
  else
    ((List.insertionSort (fun a b => b.timestamp ≤ a.timestamp)
        (store.filter (fun r => r.status = "active"))).map (fun r => r.data)).filter
      (stillActiveFilter now)

/-! ### Planet status -/

structure PlanetRow where
  planet_index : Int
  data : Json
  timestamp : Int

/-- `Database.save_planet_status`: `INSERT ... ON CONFLICT (planet_index)
DO UPDATE SET data, timestamp`; fault means rollback and `false`. -/
def save_planet_status (store : List PlanetRow) (planet_index : Int) (data : Json)
    (now : Int) (fault : Bool) : List PlanetRow × Bool :=
  if fault then (store, false)
  else if store.any (fun r => r.planet_index = planet_index) then
    (store.map (fun r =>
      if r.planet_index = planet_index then { r with data := data, timestamp := now } else r),
     true)
  else (store ++ [⟨planet_index, data, now⟩], true)

/-- `Database.get_planet_status`: `SELECT data WHERE planet_index = %s
ORDER BY timestamp DESC LIMIT 1`; fault yields `none`. -/
def get_planet_status (store : List PlanetRow) (planet_index : Int) (fault : Bool) : Option Json :=
  if fault then none
  else
    ((List.insertionSort (fun a b => b.timestamp ≤ a.timestamp)
        (store.filter (fun r => r.planet_index = planet_index))).head?).map (fun r => r.data)

/-- `SELECT DISTINCT timestamp ... ORDER BY timestamp DESC LIMIT 1`: the
greatest timestamp among the planet rows, if any. -/
def maxTimestamp? : List PlanetRow → Option Int
  | [] => none
  | r :: rest =>
      match maxTimestamp? rest with
      | none => some r.timestamp
      | some t => some (max r.timestamp t)

/-- `Database.get_latest_planets_snapshot`: all rows carrying the most
recent timestamp, ordered by planet_index ascending; `none` when there
are no rows (or the result would be empty) and on fault. -/
def get_latest_planets_snapshot (store : List PlanetRow) (fault : Bool) : Option (List Json) :=
  if fault then none
  else
    match maxTimestamp? store with
    | none => none
    | some latest =>
        let planets := (List.insertionSort (fun a b => a.planet_index ≤ b.planet_index)
          (store.filter (fun r => r.timestamp = latest))).map (fun r => r.data)
        if planets.isEmpty then none else some planets

/-! ### War status and the derived faction/biome views -/

structure WarRow where
  data : Json
  timestamp : Int

/-- `Database.save_war_status`: plain append-only insert. -/
def save_war_status (store : List WarRow) (data : Json) (now : Int)
    (fault : Bool) : List WarRow × Bool :=
  if fault then (store, false) else (store ++ [⟨data, now⟩], true)

/-- `SELECT data FROM war_status ORDER BY timestamp DESC LIMIT 1`. -/
def latestWarRow? : List WarRow → Option WarRow
  | [] => none
  | r :: rest =>
      match latestWarRow? rest with
      | none => some r
      | some best => if best.timestamp < r.timestamp then some r else some best

/-- `Database.get_latest_war_status`. -/
def get_latest_war_status (store : List WarRow) (fault : Bool) : Option Json :=
  if fault then none else (latestWarRow? store).map (fun r => r.data)

/-- `Database.get_latest_factions_snapshot`: `factions` field of the
latest war-status payload; `.get("factions", None)` returns Python
`None` both for a missing key and for a stored JSON null. -/
def get_latest_factions_snapshot (store : List WarRow) (fault : Bool) : Option Json :=
  if fault then none
  else
    match latestWarRow? store with
    | none => none
    | some row =>
        match row.data.get "factions" with
        | none => none
        | some Json.null => none
        | some v => some v

/-- The biome-accumulation loop of `get_latest_biomes_snapshot`: an
insertion-ordered dict keyed by `biome["name"]`, first occurrence kept.
(Keys are compared with Python `==`; payload values are assumed
hashable.) -/
def collectBiomes (acc : List (Json × Json)) : List PlanetRow → List (Json × Json)
  | [] => acc
  | row :: rest =>
      match row.data.get "biome" with
      | some (Json.obj fs) =>
          match (Json.obj fs).get "name" with
          | some biome_name =>
              if pyTruthy biome_name && !(acc.any (fun p => Json.beq p.1 biome_name)) then
                collectBiomes (acc ++ [(biome_name, Json.obj fs)]) rest
              else collectBiomes acc rest
          | none => collectBiomes acc rest
      | _ => collectBiomes acc rest

/-- `Database.get_latest_biomes_snapshot`: biome objects of the planets
at the most recent timestamp, de-duplicated by `biome["name"]`; `none`
when nothing qualifies and on fault. -/
def get_latest_biomes_snapshot (store : List PlanetRow) (fault : Bool) : Option (List Json) :=
  if fault then none
  else
    match maxTimestamp? store with
    | none => none
    | some latest =>
        let rows := store.filter (fun r => r.timestamp = latest)
        if rows.isEmpty then none
        else
          let biomes := collectBiomes [] rows
          if biomes.isEmpty then none else some (biomes.map (fun p => p.2))

/-! ### Batch saves (`save_assignments`, `save_dispatches`,
`save_planet_events`)

Each batch runs every `cursor.execute` on one connection and commits
once after the loop; an exception anywhere in the loop reaches the
`except` handler, the connection is rolled back on `close()`, and the
call returns `false`.  `failAt = some k` injects a raised fault at the
`k`-th executed upsert. -/

structure AssignmentRow where
  assignment_id : Json
  data : Json
  timestamp : Int

/-- `INSERT ... ON CONFLICT (assignment_id) DO UPDATE` (SQL `=` on the
key is Python/JSON equality here). -/
def upsertAssignment (store : List AssignmentRow) (aid d : Json) (now : Int) :
    List AssignmentRow :=
  if store.any (fun r => Json.beq r.assignment_id aid) then
    store.map (fun r =>
      if Json.beq r.assignment_id aid then { r with data := d, timestamp := now } else r)
  else store ++ [⟨aid, d, now⟩]

/-- The loop of `save_assignments`: items whose `id` is falsy are passed
over without an execute; `none` is a raised exception. -/
def saveAssignmentsLoop (pending : List AssignmentRow) (items : List Json) (now : Int)
    (failAt : Option Nat) (execIdx : Nat) : Option (List AssignmentRow) :=
  match items with
  | [] => some pending
  | assignment :: rest =>
      if truthyOpt (assignment.get "id") then
        if failAt = some execIdx then none
        else
          saveAssignmentsLoop
            (upsertAssignment pending ((assignment.get "id").getD .null) assignment now)
            rest now failAt (execIdx + 1)
      else saveAssignmentsLoop pending rest now failAt execIdx

/-- `Database.save_assignments`: run the loop, then one `commit`; an
exception rolls the whole batch back and returns `false`. -/
def save_assignments (store : List AssignmentRow) (items : List Json) (now : Int)
    (failAt : Option Nat) : List AssignmentRow × Bool :=
  match saveAssignmentsLoop store items now failAt 0 with
  | some pending => (pending, true)
  | none => (store, false)

/-- Number of `cursor.execute` calls `save_assignments` performs. -/
def assignExecCount (items : List Json) : Nat :=
  (items.filter (fun a => truthyOpt (a.get "id"))).length

structure DispatchRow where
  dispatch_id : Json
  data : Json
  timestamp : Int

/-- `INSERT ... ON CONFLICT (dispatch_id) DO UPDATE`. -/
def upsertDispatch (store : List DispatchRow) (did d : Json) (now : Int) :
    List DispatchRow :=
  if store.any (fun r => Json.beq r.dispatch_id did) then
    store.map (fun r =>
      if Json.beq r.dispatch_id did then { r with data := d, timestamp := now } else r)
  else store ++ [⟨did, d, now⟩]

/-- The loop of `save_dispatches`. -/
def saveDispatchesLoop (pending : List DispatchRow) (items : List Json) (now : Int)
    (failAt : Option Nat) (execIdx : Nat) : Option (List DispatchRow) :=
  match items with
  | [] => some pending
  | dispatch :: rest =>
      if truthyOpt (dispatch.get "id") then
        if failAt = some execIdx then none
        else
          saveDispatchesLoop
            (upsertDispatch pending ((dispatch.get "id").getD .null) dispatch now)
            rest now failAt (execIdx + 1)
      else saveDispatchesLoop pending rest now failAt execIdx

/-- `Database.save_dispatches`. -/
def save_dispatches (store : List DispatchRow) (items : List Json) (now : Int)
    (failAt : Option Nat) : List DispatchRow × Bool :=
  match saveDispatchesLoop store items now failAt 0 with
  | some pending => (pending, true)
  | none => (store, false)

structure PlanetEventRow where
  event_id : Json
  planet_index : Json
  event_type : Json
  data : Json
  timestamp : Int

/-- `event.get("planet_index") if "planet_index" in event else
event.get("planetIndex")`. -/
def eventPlanetIndex (event : Json) : Option Json :=
  if (event.get "planet_index").isSome then event.get "planet_index"
  else event.get "planetIndex"

/-- `event.get("event_type") if "event_type" in event else
event.get("eventType", "unknown")` (the value handed to the insert;
Python `None` is a JSON null). -/
def eventEventType (event : Json) : Json :=
  if (event.get "event_type").isSome then (event.get "event_type").getD .null
  else (event.get "eventType").getD (.str "unknown")

/-- `INSERT ... ON CONFLICT (event_id) DO UPDATE` for planet events. -/
def upsertPlanetEvent (store : List PlanetEventRow) (eid pidx etype d : Json)
    (now : Int) : List PlanetEventRow :=
  if store.any (fun r => Json.beq r.event_id eid) then
    store.map (fun r =>
      if Json.beq r.event_id eid then
        { r with planet_index := pidx, event_type := etype, data := d, timestamp := now }
      else r)
  else store ++ [⟨eid, pidx, etype, d, now⟩]

/-- The loop of `save_planet_events`: an item is executed only when both
its `id` and its (normalized) planet index are truthy. -/
def savePlanetEventsLoop (pending : List PlanetEventRow) (items : List Json) (now : Int)
    (failAt : Option Nat) (execIdx : Nat) : Option (List PlanetEventRow) :=
  match items with
  | [] => some pending
  | event :: rest =>
      if truthyOpt (event.get "id") && truthyOpt (eventPlanetIndex event) then
        if failAt = some execIdx then none
        else
          savePlanetEventsLoop
            (upsertPlanetEvent pending ((event.get "id").getD .null)
              ((eventPlanetIndex event).getD .null) (eventEventType event) event now)
            rest now failAt (execIdx + 1)
      else savePlanetEventsLoop pending rest now failAt execIdx

/-- `Database.save_planet_events`. -/
def save_planet_events (store : List PlanetEventRow) (items : List Json) (now : Int)
    (failAt : Option Nat) : List PlanetEventRow × Bool :=
  match savePlanetEventsLoop store items now failAt 0 with
  | some pending => (pending, true)
  | none => (store, false)

/-- Number of `cursor.execute` calls `save_planet_events` performs. -/
def eventExecCount (items : List Json) : Nat :=
  (items.filter (fun e => truthyOpt (e.get "id") && truthyOpt (eventPlanetIndex e))).length

/-! ### System status flags -/

structure SystemStatusRow where
  key : String
  value : Option String
  timestamp : Int

/-- `Database.update_system_status`: upsert on the unique `key` column. -/
def update_system_status (store : List SystemStatusRow) (k v : String) (now : Int)
    (fault : Bool) : List SystemStatusRow × Bool :=
  if fault then (store, false)
  else if store.any (fun r => r.key = k) then
    (store.map (fun r =>
      if r.key = k then { r with value := some v, timestamp := now } else r), true)
  else (store ++ [⟨k, some v, now⟩], true)

/-- `Database.get_system_status`: `SELECT value WHERE key = %s`,
`fetchone`; a missing row and a NULL value both come back as `None`. -/
def get_system_status (store : List SystemStatusRow) (k : String) (fault : Bool) :
    Option String :=
  if fault then none
  else
    match store.find? (fun r => r.key = k) with
    | none => none
    | some r => r.value

/-- `Database.set_upstream_status`. -/
def set_upstream_status (store : List SystemStatusRow) (available : Bool) (now : Int)
    (fault : Bool) : List SystemStatusRow × Bool :=
  update_system_status store "upstream_api_available"
    (if available then "true" else "false") now fault

/-- `Database.get_upstream_status`: `status == "true" if status else
False`. -/
def get_upstream_status (store : List SystemStatusRow) (fault : Bool) : Bool :=
  match get_system_status store "upstream_api_available" fault with
  | some status => if status != "" then status == "true" else false
  | none => false

/-! ### Statements of the specified status derivation

Two definitions follow the specification's words, to be compared with
`campaignStatus` (which follows the source): the claimed derivation,
with "parses to a time in the past" read as strictly before `now`, and
the amended derivation, with the boundary instant included. -/

/-- The claimed rule: absent or unparseable `expiresAt` gives
`"active"`; an instant strictly in the past gives `"expired"`;
otherwise `"active"`. -/
def claimedCampaignStatus (data : Json) (now : Int) : String :=
  match data.get "expiresAt" with
  | none => "active"
  | some v =>
      match _parse_expiration_time v with
      | none => "active"
      | some t => if t < now then "expired" else "active"

/-- The amended rule: as claimed, except that an `expiresAt` equal to
the write-time `now` already counts as `"expired"`. -/
def amendedCampaignStatus (data : Json) (now : Int) : String :=
  match data.get "expiresAt" with
  | none => "active"
  | some v =>
      match _parse_expiration_time v with
      | none => "active"
      | some t => if t ≤ now then "expired" else "active"

/-- Cumulative effect of a fault-free `save_assignments` loop. -/
def applyAssignments (pending : List AssignmentRow) (now : Int) : List Json → List AssignmentRow
  | [] => pending
  | assignment :: rest =>
      if truthyOpt (assignment.get "id") then
        applyAssignments (upsertAssignment pending ((assignment.get "id").getD .null) assignment now)
          now rest
      else applyAssignments pending now rest

/-- Number of `cursor.execute` calls `save_dispatches` performs. -/
def dispatchExecCount (items : List Json) : Nat :=
  (items.filter (fun a => truthyOpt (a.get "id"))).length

/-- Cumulative effect of a fault-free `save_dispatches` loop. -/
def applyDispatches (pending : List DispatchRow) (now : Int) : List Json → List DispatchRow
  | [] => pending
  | dispatch :: rest =>
      if truthyOpt (dispatch.get "id") then
        applyDispatches (upsertDispatch pending ((dispatch.get "id").getD .null) dispatch now)
          now rest
      else applyDispatches pending now rest

/-- Cumulative effect of a fault-free `save_planet_events` loop. -/
def applyPlanetEvents (pending : List PlanetEventRow) (now : Int) :
    List Json → List PlanetEventRow
  | [] => pending
  | event :: rest =>
      if truthyOpt (event.get "id") && truthyOpt (eventPlanetIndex event) then
        applyPlanetEvents (upsertPlanetEvent pending ((event.get "id").getD .null)
          ((eventPlanetIndex event).getD .null) (eventEventType event) event now) now rest
      else applyPlanetEvents pending now rest

instance : IsTotal PlanetRow (fun a b => a.planet_index ≤ b.planet_index) :=
  ⟨fun a b => Int.le_total a.planet_index b.planet_index⟩

instance : IsTrans PlanetRow (fun a b => a.planet_index ≤ b.planet_index) :=
  ⟨fun _ _ _ h1 h2 => le_trans h1 h2⟩

/-! ## Theorems -/

mutual
theorem Json.beq_refl : ∀ a : Json, Json.beq a a = true
  | .null => rfl
  | .bool a => by simp [Json.beq]
  | .num a => by simp [Json.beq]
  | .str a => by simp [Json.beq]
  | .arr xs => by simp [Json.beq, beqJsonList_refl xs]
  | .obj xs => by simp [Json.beq, beqJsonFields_refl xs]

theorem beqJsonList_refl : ∀ xs : List Json, beqJsonList xs xs = true
  | [] => rfl
  | x :: xs => by simp [beqJsonList, Json.beq_refl x, beqJsonList_refl xs]

theorem beqJsonFields_refl : ∀ xs : List (String × Json), beqJsonFields xs xs = true
  | [] => rfl
  | (k, v) :: xs => by simp [beqJsonFields, Json.beq_refl v, beqJsonFields_refl xs]
end

/-- A falsy payload value is never a parseable timestamp: the only falsy
string is `""`, which `fromisoformat` rejects, and non-strings raise
`AttributeError`. -/
theorem parse_of_falsy : ∀ v : Json, pyTruthy v = false → _parse_expiration_time v = none
  | .null, _ => rfl
  | .bool b, h => by simp [pyTruthy] at h; simp [h, _parse_expiration_time]
  | .num n, _ => rfl
  | .arr xs, _ => rfl
  | .obj fs, _ => rfl
  | .str s, h => by
      have hs : s = "" := by simpa [pyTruthy] using h
      subst hs
      rfl

/-- Every row left under the written campaign id by the campaign upsert
carries the freshly derived status. -/
theorem upsertCampaign_status (store : List CampaignRow) (cid pidx : Int) (st : String)
    (d : Json) (now : Int) :
    ∀ r ∈ upsertCampaign store cid pidx st d now, r.campaign_id = cid → r.status = st := by
  intro r hr hid
  unfold upsertCampaign at hr
  by_cases h : store.any (fun r => r.campaign_id = cid)
  · rw [if_pos h] at hr
    obtain ⟨s, _, hrs⟩ := List.mem_map.mp hr
    by_cases hsc : s.campaign_id = cid
    · rw [if_pos hsc] at hrs
      rw [← hrs]
    · rw [if_neg hsc] at hrs
      rw [← hrs] at hid
      exact absurd hid hsc
  · rw [if_neg h] at hr
    rcases List.mem_append.mp hr with hr | hr
    · exfalso
      rw [List.any_eq_true] at h
      exact h ⟨r, hr, by simpa using hid⟩
    · rw [List.mem_singleton.mp hr]

/-- C1, counterexample: a payload whose `expiresAt` parses to exactly the
write-time `now` — an instant not in the past — is stored with status
`"expired"` by `save_campaign`, while the claimed rule ("parses to a
time in the past ⇒ expired, otherwise active") yields `"active"`. -/
theorem c1_counterexample :
    campaignStatus (.obj [("expiresAt", .str "2025-01-01T00:00:00Z")]) 1735689600 = "expired"
    ∧ claimedCampaignStatus (.obj [("expiresAt", .str "2025-01-01T00:00:00Z")]) 1735689600
        = "active"
    ∧ _parse_expiration_time (.str "2025-01-01T00:00:00Z") = some 1735689600 := by
  refine ⟨by decide, by decide, by decide⟩

/-- C1, amended: the status `save_campaign` stores is a pure function of
the payload's `expiresAt` and the write-time `now`: absent or
unparseable `expiresAt` gives `"active"`, a parsed instant at or before
`now` gives `"expired"`, and a parsed instant after `now` gives
`"active"`; every row the write leaves under the written campaign id
carries exactly this status. -/
theorem c1_write_status (data : Json) (now : Int) :
    campaignStatus data now = amendedCampaignStatus data now
    ∧ ∀ store cid pidx, ∀ r ∈ (save_campaign store cid pidx data now false).1,
        r.campaign_id = cid → r.status = amendedCampaignStatus data now := by
  have hmain : campaignStatus data now = amendedCampaignStatus data now := by
    unfold campaignStatus amendedCampaignStatus
    cases hg : data.get "expiresAt" with
    | none => rfl
    | some v =>
        dsimp only
        by_cases ht : pyTruthy v
        · rw [if_pos ht]
          cases hp : _parse_expiration_time v with
          | none => rfl
          | some t =>
              dsimp only
              by_cases hle : t ≤ now
              · rw [if_neg (not_lt.mpr hle), if_pos hle]
              · rw [if_pos (not_le.mp hle), if_neg hle]
        · rw [if_neg ht, parse_of_falsy v (by simpa using ht)]
  refine ⟨hmain, ?_⟩
  intro store cid pidx r hr hid
  have : r.status = campaignStatus data now := by
    have hr' : r ∈ upsertCampaign store cid pidx (campaignStatus data now) data now := hr
    exact upsertCampaign_status store cid pidx _ data now r hr' hid
  rw [this, hmain]

/-- C1, witness: instantiation of `c1_write_status` at a payload without
`expiresAt`, written into an empty store. -/
theorem c1_witness :
    campaignStatus (.obj [("name", .str "c")]) 50
        = amendedCampaignStatus (.obj [("name", .str "c")]) 50
    ∧ (⟨1, 2, "active", .obj [("name", .str "c")], 50⟩ : CampaignRow)
        ∈ (save_campaign [] 1 2 (.obj [("name", .str "c")]) 50 false).1
    ∧ (⟨1, 2, "active", .obj [("name", .str "c")], 50⟩ : CampaignRow).status
        = amendedCampaignStatus (.obj [("name", .str "c")]) 50 := by
  refine ⟨(c1_write_status _ 50).1, List.mem_singleton_self _, ?_⟩
  exact (c1_write_status (.obj [("name", .str "c")]) 50).2 [] 1 2 _
    (List.mem_singleton_self _) rfl

/-- Unfolding of the fault-free `get_active_campaigns`. -/
theorem get_active_campaigns_ok (store : List CampaignRow) (now : Int) :
    get_active_campaigns store now false =
      ((List.insertionSort (fun a b => b.timestamp ≤ a.timestamp)
          (store.filter (fun r => r.status = "active"))).map (fun r => r.data)).filter
        (stillActiveFilter now) := rfl

/-- C2: every campaign returned by `get_active_campaigns` comes from a
stored row whose status is literally `"active"`, and its `expiresAt`, if
it parses at all, is never strictly before the read-time `now`; rows
with status `"active"` whose `expiresAt` is absent or unparseable are
always retained. -/
theorem c2_read_revalidation (store : List CampaignRow) (now : Int) :
    (∀ c ∈ get_active_campaigns store now false,
      (∃ r ∈ store, r.status = "active" ∧ r.data = c)
      ∧ ∀ v t, c.get "expiresAt" = some v → _parse_expiration_time v = some t →
          ¬ t < now)
    ∧ ∀ r ∈ store, r.status = "active" →
        (∀ v, r.data.get "expiresAt" = some v → _parse_expiration_time v = none) →
        r.data ∈ get_active_campaigns store now false := by
  constructor
  · intro c hc
    rw [get_active_campaigns_ok] at hc
    obtain ⟨hmem, hpred⟩ := List.mem_filter.mp hc
    obtain ⟨r, hr, rfl⟩ := List.mem_map.mp hmem
    have hr2 : r ∈ store.filter (fun r => r.status = "active") :=
      (List.Perm.mem_iff (List.perm_insertionSort _ _)).mp hr
    obtain ⟨hrs, hst⟩ := List.mem_filter.mp hr2
    refine ⟨⟨r, hrs, by simpa using hst, rfl⟩, ?_⟩
    intro v t hv hp hlt
    unfold stillActiveFilter at hpred
    rw [hv] at hpred
    dsimp only at hpred
    have htv : pyTruthy v = true := by
      by_contra h
      rw [parse_of_falsy v (by simpa using h)] at hp
      exact Option.noConfusion hp
    rw [if_pos htv, hp] at hpred
    have hnow : now < t := of_decide_eq_true hpred
    omega
  · intro r hr hst hparse
    rw [get_active_campaigns_ok]
    apply List.mem_filter.mpr
    refine ⟨List.mem_map.mpr ⟨r, ?_, rfl⟩, ?_⟩
    · exact (List.Perm.mem_iff (List.perm_insertionSort _ _)).mpr
        (List.mem_filter.mpr ⟨hr, by simp [hst]⟩)
    · unfold stillActiveFilter
      cases hv : r.data.get "expiresAt" with
      | none => rfl
      | some v =>
          dsimp only
          rw [hparse v hv]
          by_cases ht : pyTruthy v
          · rw [if_pos ht]
          · rw [if_neg ht]

/-- C2, witness: a stored `"active"` campaign without `expiresAt` is
returned by `get_active_campaigns`. -/
theorem c2_witness :
    Json.obj [("name", .str "c")] ∈
      get_active_campaigns [⟨1, 7, "active", .obj [("name", .str "c")], 5⟩] 100 false := by
  refine (c2_read_revalidation [⟨1, 7, "active", .obj [("name", .str "c")], 5⟩] 100).2
    ⟨1, 7, "active", .obj [("name", .str "c")], 5⟩ (List.mem_singleton_self _) rfl ?_
  intro v hv
  exact absurd hv (by simp [Json.get, lookupField])

/-- One step of the `save_assignments` loop. -/
theorem saveAssignmentsLoop_cons (pending : List AssignmentRow) (a : Json) (rest : List Json)
    (now : Int) (failAt : Option Nat) (i : Nat) :
    saveAssignmentsLoop pending (a :: rest) now failAt i =
      if truthyOpt (a.get "id") then
        (if failAt = some i then none
         else
           saveAssignmentsLoop (upsertAssignment pending ((a.get "id").getD .null) a now)
             rest now failAt (i + 1))
      else saveAssignmentsLoop pending rest now failAt i := rfl

/-- One step of the cumulative fault-free effect. -/
theorem applyAssignments_cons (pending : List AssignmentRow) (now : Int) (a : Json)
    (rest : List Json) :
    applyAssignments pending now (a :: rest) =
      if truthyOpt (a.get "id") then
        applyAssignments (upsertAssignment pending ((a.get "id").getD .null) a now) now rest
      else applyAssignments pending now rest := rfl

/-- A fault-free `save_assignments` loop never raises. -/
theorem saveAssignmentsLoop_none (items : List Json) :
    ∀ (pending : List AssignmentRow) (now : Int) (i : Nat),
      saveAssignmentsLoop pending items now none i = some (applyAssignments pending now items) := by
  induction items with
  | nil => intro pending now i; rfl
  | cons a rest ih =>
      intro pending now i
      rw [saveAssignmentsLoop_cons, applyAssignments_cons]
      by_cases h : truthyOpt (a.get "id")
      · rw [if_pos h, if_pos h, if_neg (by simp)]
        exact ih _ _ _
      · rw [if_neg h, if_neg h]
        exact ih _ _ _

/-- A fault at an executed upsert makes the loop raise. -/
theorem saveAssignmentsLoop_fail (items : List Json) :
    ∀ (pending : List AssignmentRow) (now : Int) (k i : Nat), i ≤ k →
      k < i + assignExecCount items →
      saveAssignmentsLoop pending items now (some k) i = none := by
  induction items with
  | nil =>
      intro pending now k i h1 h2
      simp [assignExecCount] at h2
      omega
  | cons a rest ih =>
      intro pending now k i h1 h2
      rw [saveAssignmentsLoop_cons]
      by_cases h : truthyOpt (a.get "id")
      · rw [if_pos h]
        by_cases hk : k = i
        · rw [if_pos (by rw [hk])]
        · rw [if_neg (by simp [hk])]
          have hc : assignExecCount (a :: rest) = assignExecCount rest + 1 := by
            simp [assignExecCount, List.filter_cons, h]
          exact ih _ _ _ _ (by omega) (by omega)
      · rw [if_neg h]
        have hc : assignExecCount (a :: rest) = assignExecCount rest := by
          simp [assignExecCount, List.filter_cons, h]
        exact ih _ _ _ _ h1 (by omega)

/-- A fault index outside the executed range has no effect. -/
theorem saveAssignmentsLoop_pass (items : List Json) :
    ∀ (pending : List AssignmentRow) (now : Int) (k i : Nat),
      (k < i ∨ i + assignExecCount items ≤ k) →
      saveAssignmentsLoop pending items now (some k) i =
        saveAssignmentsLoop pending items now none i := by
  induction items with
  | nil => intro pending now k i _; rfl
  | cons a rest ih =>
      intro pending now k i hki
      rw [saveAssignmentsLoop_cons, saveAssignmentsLoop_cons]
      by_cases h : truthyOpt (a.get "id")
      · rw [if_pos h, if_pos h]
        have hc : assignExecCount (a :: rest) = assignExecCount rest + 1 := by
          simp [assignExecCount, List.filter_cons, h]
        have hk : ¬ k = i := by omega
        rw [if_neg (by simp [hk]), if_neg (by simp)]
        exact ih _ _ _ _ (by omega)
      · rw [if_neg h, if_neg h]
        have hc : assignExecCount (a :: rest) = assignExecCount rest := by
          simp [assignExecCount, List.filter_cons, h]
        exact ih _ _ _ _ (by omega)

/-- `save_assignments` with a fault inside the batch: the whole
transaction is rolled back. -/
theorem save_assignments_fail (store : List AssignmentRow) (items : List Json) (now : Int)
    (k : Nat) (h : k < assignExecCount items) :
    save_assignments store items now (some k) = (store, false) := by
  unfold save_assignments
  rw [saveAssignmentsLoop_fail items store now k 0 (Nat.zero_le k) (by omega)]

/-- `save_assignments` with a fault index beyond the executed upserts
behaves as the fault-free call. -/
theorem save_assignments_pass (store : List AssignmentRow) (items : List Json) (now : Int)
    (k : Nat) (h : assignExecCount items ≤ k) :
    save_assignments store items now (some k) = save_assignments store items now none := by
  unfold save_assignments
  rw [saveAssignmentsLoop_pass items store now k 0 (Or.inr (by omega))]

/-- The fault-free `save_assignments` commits the folded upserts and
reports success. -/
theorem save_assignments_ok (store : List AssignmentRow) (items : List Json) (now : Int) :
    save_assignments store items now none = (applyAssignments store now items, true) := by
  unfold save_assignments
  rw [saveAssignmentsLoop_none]

/-- An item with a falsy `id` is invisible to the `save_assignments`
loop. -/
theorem saveAssignmentsLoop_skip (a : Json) (ha : truthyOpt (a.get "id") = false)
    (l1 : List Json) :
    ∀ (l2 : List Json) (pending : List AssignmentRow) (now : Int) (failAt : Option Nat)
      (i : Nat),
      saveAssignmentsLoop pending (l1 ++ a :: l2) now failAt i =
        saveAssignmentsLoop pending (l1 ++ l2) now failAt i := by
  induction l1 with
  | nil =>
      intro l2 pending now failAt i
      simp only [List.nil_append]
      rw [saveAssignmentsLoop_cons, if_neg (by simp [ha])]
  | cons b l1 ih =>
      intro l2 pending now failAt i
      simp only [List.cons_append]
      rw [saveAssignmentsLoop_cons, saveAssignmentsLoop_cons]
      by_cases hb : truthyOpt (b.get "id")
      · rw [if_pos hb, if_pos hb]
        by_cases hf : failAt = some i
        · rw [if_pos hf, if_pos hf]
        · rw [if_neg hf, if_neg hf, ih]
      · rw [if_neg hb, if_neg hb, ih]

/-- The assignments upsert leaves a row carrying the written key. -/
theorem upsertAssignment_key (pending : List AssignmentRow) (aid d : Json) (now : Int) :
    ∃ r ∈ upsertAssignment pending aid d now, Json.beq r.assignment_id aid = true := by
  unfold upsertAssignment
  by_cases h : pending.any (fun r => Json.beq r.assignment_id aid)
  · rw [if_pos h]
    obtain ⟨s, hs, hbeq⟩ := List.any_eq_true.mp h
    refine ⟨_, List.mem_map.mpr ⟨s, hs, rfl⟩, ?_⟩
    rw [if_pos hbeq]
    exact hbeq
  · rw [if_neg h]
    exact ⟨⟨aid, d, now⟩, List.mem_append_right _ (List.mem_singleton_self _),
      Json.beq_refl aid⟩

/-- The assignments upsert never loses a key already present. -/
theorem upsertAssignment_key_mono (pending : List AssignmentRow) (aid d : Json) (now : Int)
    (k : Json) (h : ∃ r ∈ pending, Json.beq r.assignment_id k = true) :
    ∃ r ∈ upsertAssignment pending aid d now, Json.beq r.assignment_id k = true := by
  obtain ⟨r, hr, hb⟩ := h
  unfold upsertAssignment
  by_cases h2 : pending.any (fun r => Json.beq r.assignment_id aid)
  · rw [if_pos h2]
    refine ⟨_, List.mem_map.mpr ⟨r, hr, rfl⟩, ?_⟩
    by_cases hc : Json.beq r.assignment_id aid = true
    · rw [if_pos hc]; exact hb
    · rw [if_neg hc]; exact hb
  · rw [if_neg h2]
    exact ⟨r, List.mem_append_left _ hr, hb⟩

/-- Keys survive the rest of the batch fold. -/
theorem applyAssignments_key_mono (items : List Json) :
    ∀ (pending : List AssignmentRow) (now : Int) (k : Json),
      (∃ r ∈ pending, Json.beq r.assignment_id k = true) →
      ∃ r ∈ applyAssignments pending now items, Json.beq r.assignment_id k = true := by
  induction items with
  | nil => intro pending now k h; exact h
  | cons a rest ih =>
      intro pending now k h
      rw [applyAssignments_cons]
      by_cases ha : truthyOpt (a.get "id")
      · rw [if_pos ha]
        exact ih _ _ _ (upsertAssignment_key_mono _ _ _ _ _ h)
      · rw [if_neg ha]
        exact ih _ _ _ h

/-- Every item with a truthy `id` ends up represented in the committed
batch. -/
theorem applyAssignments_mem_key (items : List Json) :
    ∀ (pending : List AssignmentRow) (now : Int) (a : Json), a ∈ items →
      truthyOpt (a.get "id") = true →
      ∃ r ∈ applyAssignments pending now items,
        Json.beq r.assignment_id ((a.get "id").getD .null) = true := by
  induction items with
  | nil => intro _ _ _ h; exact absurd h (List.not_mem_nil _)
  | cons b rest ih =>
      intro pending now a ha htr
      rw [applyAssignments_cons]
      rcases List.mem_cons.mp ha with rfl | ha2
      · rw [if_pos htr]
        exact applyAssignments_key_mono rest _ now _ (upsertAssignment_key pending _ a now)
      · by_cases hb : truthyOpt (b.get "id")
        · rw [if_pos hb]; exact ih _ now a ha2 htr
        · rw [if_neg hb]; exact ih _ now a ha2 htr

/-- One step of the `save_dispatches` loop. -/
theorem saveDispatchesLoop_cons (pending : List DispatchRow) (a : Json) (rest : List Json)
    (now : Int) (failAt : Option Nat) (i : Nat) :
    saveDispatchesLoop pending (a :: rest) now failAt i =
      if truthyOpt (a.get "id") then
        (if failAt = some i then none
         else
           saveDispatchesLoop (upsertDispatch pending ((a.get "id").getD .null) a now)
             rest now failAt (i + 1))
      else saveDispatchesLoop pending rest now failAt i := rfl

/-- A fault-free `save_dispatches` loop never raises. -/
theorem saveDispatchesLoop_none_isSome (items : List Json) :
    ∀ (pending : List DispatchRow) (now : Int) (i : Nat),
      (saveDispatchesLoop pending items now none i).isSome = true := by
  induction items with
  | nil => intro pending now i; rfl
  | cons a rest ih =>
      intro pending now i
      rw [saveDispatchesLoop_cons]
      by_cases h : truthyOpt (a.get "id")
      · rw [if_pos h, if_neg (by simp)]
        exact ih _ _ _
      · rw [if_neg h]
        exact ih _ _ _

/-- The fault-free `save_dispatches` reports success. -/
theorem save_dispatches_true (store : List DispatchRow) (items : List Json) (now : Int) :
    (save_dispatches store items now none).2 = true := by
  unfold save_dispatches
  have hs := saveDispatchesLoop_none_isSome items store now 0
  cases h : saveDispatchesLoop store items now none 0 with
  | none => rw [h] at hs; simp at hs
  | some p => rfl

/-- An item with a falsy `id` is invisible to the `save_dispatches`
loop. -/
theorem saveDispatchesLoop_skip (a : Json) (ha : truthyOpt (a.get "id") = false)
    (l1 : List Json) :
    ∀ (l2 : List Json) (pending : List DispatchRow) (now : Int) (failAt : Option Nat)
      (i : Nat),
      saveDispatchesLoop pending (l1 ++ a :: l2) now failAt i =
        saveDispatchesLoop pending (l1 ++ l2) now failAt i := by
  induction l1 with
  | nil =>
      intro l2 pending now failAt i
      simp only [List.nil_append]
      rw [saveDispatchesLoop_cons, if_neg (by simp [ha])]
  | cons b l1 ih =>
      intro l2 pending now failAt i
      simp only [List.cons_append]
      rw [saveDispatchesLoop_cons, saveDispatchesLoop_cons]
      by_cases hb : truthyOpt (b.get "id")
      · rw [if_pos hb, if_pos hb]
        by_cases hf : failAt = some i
        · rw [if_pos hf, if_pos hf]
        · rw [if_neg hf, if_neg hf, ih]
      · rw [if_neg hb, if_neg hb, ih]

/-- One step of the `save_planet_events` loop. -/
theorem savePlanetEventsLoop_cons (pending : List PlanetEventRow) (e : Json)
    (rest : List Json) (now : Int) (failAt : Option Nat) (i : Nat) :
    savePlanetEventsLoop pending (e :: rest) now failAt i =
      if truthyOpt (e.get "id") && truthyOpt (eventPlanetIndex e) then
        (if failAt = some i then none
         else
           savePlanetEventsLoop
             (upsertPlanetEvent pending ((e.get "id").getD .null)
               ((eventPlanetIndex e).getD .null) (eventEventType e) e now)
             rest now failAt (i + 1))
      else savePlanetEventsLoop pending rest now failAt i := rfl

/-- A fault-free `save_planet_events` loop never raises. -/
theorem savePlanetEventsLoop_none_isSome (items : List Json) :
    ∀ (pending : List PlanetEventRow) (now : Int) (i : Nat),
      (savePlanetEventsLoop pending items now none i).isSome = true := by
  induction items with
  | nil => intro pending now i; rfl
  | cons e rest ih =>
      intro pending now i
      rw [savePlanetEventsLoop_cons]
      by_cases h : truthyOpt (e.get "id") && truthyOpt (eventPlanetIndex e)
      · rw [if_pos h, if_neg (by simp)]
        exact ih _ _ _
      · rw [if_neg h]
        exact ih _ _ _

/-- The fault-free `save_planet_events` reports success. -/
theorem save_planet_events_true (store : List PlanetEventRow) (items : List Json)
    (now : Int) : (save_planet_events store items now none).2 = true := by
  unfold save_planet_events
  have hs := savePlanetEventsLoop_none_isSome items store now 0
  cases h : savePlanetEventsLoop store items now none 0 with
  | none => rw [h] at hs; simp at hs
  | some p => rfl

/-- A fault at an executed upsert makes the planet-event loop raise. -/
theorem savePlanetEventsLoop_fail (items : List Json) :
    ∀ (pending : List PlanetEventRow) (now : Int) (k i : Nat), i ≤ k →
      k < i + eventExecCount items →
      savePlanetEventsLoop pending items now (some k) i = none := by
  induction items with
  | nil =>
      intro pending now k i h1 h2
      simp [eventExecCount] at h2
      omega
  | cons e rest ih =>
      intro pending now k i h1 h2
      rw [savePlanetEventsLoop_cons]
      by_cases h : truthyOpt (e.get "id") && truthyOpt (eventPlanetIndex e)
      · rw [if_pos h]
        by_cases hk : k = i
        · rw [if_pos (by rw [hk])]
        · rw [if_neg (by simp [hk])]
          have hc : eventExecCount (e :: rest) = eventExecCount rest + 1 := by
            simp [eventExecCount, List.filter_cons, h]
          exact ih _ _ _ _ (by omega) (by omega)
      · rw [if_neg h]
        have hc : eventExecCount (e :: rest) = eventExecCount rest := by
          simp [eventExecCount, List.filter_cons, h]
        exact ih _ _ _ _ h1 (by omega)

/-- A fault index outside the executed range has no effect on the
planet-event loop. -/
theorem savePlanetEventsLoop_pass (items : List Json) :
    ∀ (pending : List PlanetEventRow) (now : Int) (k i : Nat),
      (k < i ∨ i + eventExecCount items ≤ k) →
      savePlanetEventsLoop pending items now (some k) i =
        savePlanetEventsLoop pending items now none i := by
  induction items with
  | nil => intro pending now k i _; rfl
  | cons e rest ih =>
      intro pending now k i hki
      rw [savePlanetEventsLoop_cons, savePlanetEventsLoop_cons]
      by_cases h : truthyOpt (e.get "id") && truthyOpt (eventPlanetIndex e)
      · rw [if_pos h, if_pos h]
        have hc : eventExecCount (e :: rest) = eventExecCount rest + 1 := by
          simp [eventExecCount, List.filter_cons, h]
        have hk : ¬ k = i := by omega
        rw [if_neg (by simp [hk]), if_neg (by simp)]
        exact ih _ _ _ _ (by omega)
      · rw [if_neg h, if_neg h]
        have hc : eventExecCount (e :: rest) = eventExecCount rest := by
          simp [eventExecCount, List.filter_cons, h]
        exact ih _ _ _ _ (by omega)

/-- `save_planet_events` with a fault inside the batch rolls the whole
batch back. -/
theorem save_planet_events_fail (store : List PlanetEventRow) (items : List Json)
    (now : Int) (k : Nat) (h : k < eventExecCount items) :
    save_planet_events store items now (some k) = (store, false) := by
  unfold save_planet_events
  rw [savePlanetEventsLoop_fail items store now k 0 (Nat.zero_le k) (by omega)]

/-- `save_planet_events` with a fault index beyond the executed upserts
behaves as the fault-free call. -/
theorem save_planet_events_pass (store : List PlanetEventRow) (items : List Json)
    (now : Int) (k : Nat) (h : eventExecCount items ≤ k) :
    save_planet_events store items now (some k) = save_planet_events store items now none := by
  unfold save_planet_events
  rw [savePlanetEventsLoop_pass items store now k 0 (Or.inr (by omega))]

/-- An item whose planet index resolves to nothing is invisible to the
`save_planet_events` loop. -/
theorem savePlanetEventsLoop_skip (e : Json) (he : eventPlanetIndex e = none)
    (l1 : List Json) :
    ∀ (l2 : List Json) (pending : List PlanetEventRow) (now : Int) (failAt : Option Nat)
      (i : Nat),
      savePlanetEventsLoop pending (l1 ++ e :: l2) now failAt i =
        savePlanetEventsLoop pending (l1 ++ l2) now failAt i := by
  induction l1 with
  | nil =>
      intro l2 pending now failAt i
      simp only [List.nil_append]
      rw [savePlanetEventsLoop_cons, if_neg (by simp [he, truthyOpt])]
  | cons b l1 ih =>
      intro l2 pending now failAt i
      simp only [List.cons_append]
      rw [savePlanetEventsLoop_cons, savePlanetEventsLoop_cons]
      by_cases hb : truthyOpt (b.get "id") && truthyOpt (eventPlanetIndex b)
      · rw [if_pos hb, if_pos hb]
        by_cases hf : failAt = some i
        · rw [if_pos hf, if_pos hf]
        · rw [if_neg hf, if_neg hf, ih]
      · rw [if_neg hb, if_neg hb, ih]

/-- One step of the cumulative dispatch effect. -/
theorem applyDispatches_cons (pending : List DispatchRow) (now : Int) (a : Json)
    (rest : List Json) :
    applyDispatches pending now (a :: rest) =
      if truthyOpt (a.get "id") then
        applyDispatches (upsertDispatch pending ((a.get "id").getD .null) a now) now rest
      else applyDispatches pending now rest := rfl

/-- A fault-free `save_dispatches` loop never raises and folds the
upserts. -/
theorem saveDispatchesLoop_none (items : List Json) :
    ∀ (pending : List DispatchRow) (now : Int) (i : Nat),
      saveDispatchesLoop pending items now none i = some (applyDispatches pending now items) := by
  induction items with
  | nil => intro pending now i; rfl
  | cons a rest ih =>
      intro pending now i
      rw [saveDispatchesLoop_cons, applyDispatches_cons]
      by_cases h : truthyOpt (a.get "id")
      · rw [if_pos h, if_pos h, if_neg (by simp)]
        exact ih _ _ _
      · rw [if_neg h, if_neg h]
        exact ih _ _ _

/-- The fault-free `save_dispatches` commits the folded upserts and
reports success. -/
theorem save_dispatches_ok (store : List DispatchRow) (items : List Json) (now : Int) :
    save_dispatches store items now none = (applyDispatches store now items, true) := by
  unfold save_dispatches
  rw [saveDispatchesLoop_none]

/-- A fault at an executed upsert makes the dispatch loop raise. -/
theorem saveDispatchesLoop_fail (items : List Json) :
    ∀ (pending : List DispatchRow) (now : Int) (k i : Nat), i ≤ k →
      k < i + dispatchExecCount items →
      saveDispatchesLoop pending items now (some k) i = none := by
  induction items with
  | nil =>
      intro pending now k i h1 h2
      simp [dispatchExecCount] at h2
      omega
  | cons a rest ih =>
      intro pending now k i h1 h2
      rw [saveDispatchesLoop_cons]
      by_cases h : truthyOpt (a.get "id")
      · rw [if_pos h]
        by_cases hk : k = i
        · rw [if_pos (by rw [hk])]
        · rw [if_neg (by simp [hk])]
          have hc : dispatchExecCount (a :: rest) = dispatchExecCount rest + 1 := by
            simp [dispatchExecCount, List.filter_cons, h]
          exact ih _ _ _ _ (by omega) (by omega)
      · rw [if_neg h]
        have hc : dispatchExecCount (a :: rest) = dispatchExecCount rest := by
          simp [dispatchExecCount, List.filter_cons, h]
        exact ih _ _ _ _ h1 (by omega)

/-- A fault index outside the executed range has no effect on the
dispatch loop. -/
theorem saveDispatchesLoop_pass (items : List Json) :
    ∀ (pending : List DispatchRow) (now : Int) (k i : Nat),
      (k < i ∨ i + dispatchExecCount items ≤ k) →
      saveDispatchesLoop pending items now (some k) i =
        saveDispatchesLoop pending items now none i := by
  induction items with
  | nil => intro pending now k i _; rfl
  | cons a rest ih =>
      intro pending now k i hki
      rw [saveDispatchesLoop_cons, saveDispatchesLoop_cons]
      by_cases h : truthyOpt (a.get "id")
      · rw [if_pos h, if_pos h]
        have hc : dispatchExecCount (a :: rest) = dispatchExecCount rest + 1 := by
          simp [dispatchExecCount, List.filter_cons, h]
        have hk : ¬ k = i := by omega
        rw [if_neg (by simp [hk]), if_neg (by simp)]
        exact ih _ _ _ _ (by omega)
      · rw [if_neg h, if_neg h]
        have hc : dispatchExecCount (a :: rest) = dispatchExecCount rest := by
          simp [dispatchExecCount, List.filter_cons, h]
        exact ih _ _ _ _ (by omega)

/-- `save_dispatches` with a fault inside the batch: the whole
transaction is rolled back. -/
theorem save_dispatches_fail (store : List DispatchRow) (items : List Json) (now : Int)
    (k : Nat) (h : k < dispatchExecCount items) :
    save_dispatches store items now (some k) = (store, false) := by
  unfold save_dispatches
  rw [saveDispatchesLoop_fail items store now k 0 (Nat.zero_le k) (by omega)]

/-- `save_dispatches` with a fault index beyond the executed upserts
behaves as the fault-free call. -/
theorem save_dispatches_pass (store : List DispatchRow) (items : List Json) (now : Int)
    (k : Nat) (h : dispatchExecCount items ≤ k) :
    save_dispatches store items now (some k) = save_dispatches store items now none := by
  unfold save_dispatches
  rw [saveDispatchesLoop_pass items store now k 0 (Or.inr (by omega))]

/-- The dispatch upsert leaves a row carrying the written key. -/
theorem upsertDispatch_key (pending : List DispatchRow) (did d : Json) (now : Int) :
    ∃ r ∈ upsertDispatch pending did d now, Json.beq r.dispatch_id did = true := by
  unfold upsertDispatch
  by_cases h : pending.any (fun r => Json.beq r.dispatch_id did)
  · rw [if_pos h]
    obtain ⟨s, hs, hbeq⟩ := List.any_eq_true.mp h
    refine ⟨_, List.mem_map.mpr ⟨s, hs, rfl⟩, ?_⟩
    rw [if_pos hbeq]
    exact hbeq
  · rw [if_neg h]
    exact ⟨⟨did, d, now⟩, List.mem_append_right _ (List.mem_singleton_self _),
      Json.beq_refl did⟩

/-- The dispatch upsert never loses a key already present. -/
theorem upsertDispatch_key_mono (pending : List DispatchRow) (did d : Json) (now : Int)
    (k : Json) (h : ∃ r ∈ pending, Json.beq r.dispatch_id k = true) :
    ∃ r ∈ upsertDispatch pending did d now, Json.beq r.dispatch_id k = true := by
  obtain ⟨r, hr, hb⟩ := h
  unfold upsertDispatch
  by_cases h2 : pending.any (fun r => Json.beq r.dispatch_id did)
  · rw [if_pos h2]
    refine ⟨_, List.mem_map.mpr ⟨r, hr, rfl⟩, ?_⟩
    by_cases hc : Json.beq r.dispatch_id did = true
    · rw [if_pos hc]; exact hb
    · rw [if_neg hc]; exact hb
  · rw [if_neg h2]
    exact ⟨r, List.mem_append_left _ hr, hb⟩

/-- Dispatch keys survive the rest of the batch fold. -/
theorem applyDispatches_key_mono (items : List Json) :
    ∀ (pending : List DispatchRow) (now : Int) (k : Json),
      (∃ r ∈ pending, Json.beq r.dispatch_id k = true) →
      ∃ r ∈ applyDispatches pending now items, Json.beq r.dispatch_id k = true := by
  induction items with
  | nil => intro pending now k h; exact h
  | cons a rest ih =>
      intro pending now k h
      rw [applyDispatches_cons]
      by_cases ha : truthyOpt (a.get "id")
      · rw [if_pos ha]
        exact ih _ _ _ (upsertDispatch_key_mono _ _ _ _ _ h)
      · rw [if_neg ha]
        exact ih _ _ _ h

/-- Every dispatch item with a truthy `id` ends up represented in the
committed batch. -/
theorem applyDispatches_mem_key (items : List Json) :
    ∀ (pending : List DispatchRow) (now : Int) (a : Json), a ∈ items →
      truthyOpt (a.get "id") = true →
      ∃ r ∈ applyDispatches pending now items,
        Json.beq r.dispatch_id ((a.get "id").getD .null) = true := by
  induction items with
  | nil => intro _ _ _ h; exact absurd h (List.not_mem_nil _)
  | cons b rest ih =>
      intro pending now a ha htr
      rw [applyDispatches_cons]
      rcases List.mem_cons.mp ha with rfl | ha2
      · rw [if_pos htr]
        exact applyDispatches_key_mono rest _ now _ (upsertDispatch_key pending _ a now)
      · by_cases hb : truthyOpt (b.get "id")
        · rw [if_pos hb]; exact ih _ now a ha2 htr
        · rw [if_neg hb]; exact ih _ now a ha2 htr

/-- One step of the cumulative planet-event effect. -/
theorem applyPlanetEvents_cons (pending : List PlanetEventRow) (now : Int) (e : Json)
    (rest : List Json) :
    applyPlanetEvents pending now (e :: rest) =
      if truthyOpt (e.get "id") && truthyOpt (eventPlanetIndex e) then
        applyPlanetEvents (upsertPlanetEvent pending ((e.get "id").getD .null)
          ((eventPlanetIndex e).getD .null) (eventEventType e) e now) now rest
      else applyPlanetEvents pending now rest := rfl

/-- A fault-free `save_planet_events` loop folds the upserts. -/
theorem savePlanetEventsLoop_none (items : List Json) :
    ∀ (pending : List PlanetEventRow) (now : Int) (i : Nat),
      savePlanetEventsLoop pending items now none i =
        some (applyPlanetEvents pending now items) := by
  induction items with
  | nil => intro pending now i; rfl
  | cons e rest ih =>
      intro pending now i
      rw [savePlanetEventsLoop_cons, applyPlanetEvents_cons]
      by_cases h : truthyOpt (e.get "id") && truthyOpt (eventPlanetIndex e)
      · rw [if_pos h, if_pos h, if_neg (by simp)]
        exact ih _ _ _
      · rw [if_neg h, if_neg h]
        exact ih _ _ _

/-- The fault-free `save_planet_events` commits the folded upserts. -/
theorem save_planet_events_ok (store : List PlanetEventRow) (items : List Json)
    (now : Int) :
    save_planet_events store items now none = (applyPlanetEvents store now items, true) := by
  unfold save_planet_events
  rw [savePlanetEventsLoop_none]

/-- An event item with a falsy `id` is invisible to the
`save_planet_events` loop. -/
theorem savePlanetEventsLoop_skip_id (e : Json) (he : truthyOpt (e.get "id") = false)
    (l1 : List Json) :
    ∀ (l2 : List Json) (pending : List PlanetEventRow) (now : Int) (failAt : Option Nat)
      (i : Nat),
      savePlanetEventsLoop pending (l1 ++ e :: l2) now failAt i =
        savePlanetEventsLoop pending (l1 ++ l2) now failAt i := by
  induction l1 with
  | nil =>
      intro l2 pending now failAt i
      simp only [List.nil_append]
      rw [savePlanetEventsLoop_cons, if_neg (by simp [he])]
  | cons b l1 ih =>
      intro l2 pending now failAt i
      simp only [List.cons_append]
      rw [savePlanetEventsLoop_cons, savePlanetEventsLoop_cons]
      by_cases hb : truthyOpt (b.get "id") && truthyOpt (eventPlanetIndex b)
      · rw [if_pos hb, if_pos hb]
        by_cases hf : failAt = some i
        · rw [if_pos hf, if_pos hf]
        · rw [if_neg hf, if_neg hf, ih]
      · rw [if_neg hb, if_neg hb, ih]

/-- The planet-event upsert leaves a row carrying the written key. -/
theorem upsertPlanetEvent_key (pending : List PlanetEventRow) (eid pidx etype d : Json)
    (now : Int) :
    ∃ r ∈ upsertPlanetEvent pending eid pidx etype d now,
      Json.beq r.event_id eid = true := by
  unfold upsertPlanetEvent
  by_cases h : pending.any (fun r => Json.beq r.event_id eid)
  · rw [if_pos h]
    obtain ⟨s, hs, hbeq⟩ := List.any_eq_true.mp h
    refine ⟨_, List.mem_map.mpr ⟨s, hs, rfl⟩, ?_⟩
    rw [if_pos hbeq]
    exact hbeq
  · rw [if_neg h]
    exact ⟨⟨eid, pidx, etype, d, now⟩,
      List.mem_append_right _ (List.mem_singleton_self _), Json.beq_refl eid⟩

/-- The planet-event upsert never loses a key already present. -/
theorem upsertPlanetEvent_key_mono (pending : List PlanetEventRow)
    (eid pidx etype d : Json) (now : Int) (k : Json)
    (h : ∃ r ∈ pending, Json.beq r.event_id k = true) :
    ∃ r ∈ upsertPlanetEvent pending eid pidx etype d now,
      Json.beq r.event_id k = true := by
  obtain ⟨r, hr, hb⟩ := h
  unfold upsertPlanetEvent
  by_cases h2 : pending.any (fun r => Json.beq r.event_id eid)
  · rw [if_pos h2]
    refine ⟨_, List.mem_map.mpr ⟨r, hr, rfl⟩, ?_⟩
    by_cases hc : Json.beq r.event_id eid = true
    · rw [if_pos hc]; exact hb
    · rw [if_neg hc]; exact hb
  · rw [if_neg h2]
    exact ⟨r, List.mem_append_left _ hr, hb⟩

/-- Event keys survive the rest of the batch fold. -/
theorem applyPlanetEvents_key_mono (items : List Json) :
    ∀ (pending : List PlanetEventRow) (now : Int) (k : Json),
      (∃ r ∈ pending, Json.beq r.event_id k = true) →
      ∃ r ∈ applyPlanetEvents pending now items, Json.beq r.event_id k = true := by
  induction items with
  | nil => intro pending now k h; exact h
  | cons e rest ih =>
      intro pending now k h
      rw [applyPlanetEvents_cons]
      by_cases he : truthyOpt (e.get "id") && truthyOpt (eventPlanetIndex e)
      · rw [if_pos he]
        exact ih _ _ _ (upsertPlanetEvent_key_mono _ _ _ _ _ _ _ h)
      · rw [if_neg he]
        exact ih _ _ _ h

/-- Every event item with a truthy `id` and a truthy planet index ends
up represented in the committed batch. -/
theorem applyPlanetEvents_mem_key (items : List Json) :
    ∀ (pending : List PlanetEventRow) (now : Int) (e : Json), e ∈ items →
      (truthyOpt (e.get "id") && truthyOpt (eventPlanetIndex e)) = true →
      ∃ r ∈ applyPlanetEvents pending now items,
        Json.beq r.event_id ((e.get "id").getD .null) = true := by
  induction items with
  | nil => intro _ _ _ h; exact absurd h (List.not_mem_nil _)
  | cons b rest ih =>
      intro pending now e he htr
      rw [applyPlanetEvents_cons]
      rcases List.mem_cons.mp he with rfl | he2
      · rw [if_pos htr]
        exact applyPlanetEvents_key_mono rest _ now _
          (upsertPlanetEvent_key pending _ _ _ e now)
      · by_cases hb : truthyOpt (b.get "id") && truthyOpt (eventPlanetIndex b)
        · rw [if_pos hb]; exact ih _ now e he2 htr
        · rw [if_neg hb]; exact ih _ now e he2 htr

/-- C3, counterexample: `save_assignments` on two well-formed items with
a fault at the second `cursor.execute` returns the store unchanged — the
first item, although written before the failure, is not committed —
while the same first item alone would persist. -/
theorem c3_counterexample :
    save_assignments [] [.obj [("id", .num 1)], .obj [("id", .num 2)]] 10 (some 1)
        = ([], false)
    ∧ (save_assignments [] [.obj [("id", .num 1)]] 10 none).1
        = [⟨.num 1, .obj [("id", .num 1)], 10⟩]
    ∧ assignExecCount [Json.obj [("id", .num 1)], .obj [("id", .num 2)]] = 2 :=
  ⟨rfl, rfl, rfl⟩

/-- C3 (amended): single-record saves are one transaction per record — a
fault rolls back just that record's write and returns `false` — but each
batch save runs its whole item list inside one transaction committed
after the loop: a fault at any executed item leaves the store unchanged
(items written before the failure are rolled back, not committed), a
fault index beyond the executed upserts is equivalent to the fault-free
run, and the fault-free batch commits and reports success. -/
theorem c3_transaction_scope (astore : List AssignmentRow) (dstore : List DispatchRow)
    (estore : List PlanetEventRow) (cstore : List CampaignRow) (items : List Json)
    (now : Int) (cid pidx : Int) (d : Json) (k : Nat) :
    (k < assignExecCount items →
      save_assignments astore items now (some k) = (astore, false))
    ∧ (assignExecCount items ≤ k →
      save_assignments astore items now (some k) = save_assignments astore items now none)
    ∧ (save_assignments astore items now none).2 = true
    ∧ (k < dispatchExecCount items →
      save_dispatches dstore items now (some k) = (dstore, false))
    ∧ (dispatchExecCount items ≤ k →
      save_dispatches dstore items now (some k) = save_dispatches dstore items now none)
    ∧ (save_dispatches dstore items now none).2 = true
    ∧ (k < eventExecCount items →
      save_planet_events estore items now (some k) = (estore, false))
    ∧ (eventExecCount items ≤ k →
      save_planet_events estore items now (some k) = save_planet_events estore items now none)
    ∧ (save_planet_events estore items now none).2 = true
    ∧ save_campaign cstore cid pidx d now true = (cstore, false)
    ∧ (save_campaign cstore cid pidx d now false).2 = true := by
  refine ⟨save_assignments_fail astore items now k,
    save_assignments_pass astore items now k,
    by rw [save_assignments_ok],
    save_dispatches_fail dstore items now k,
    save_dispatches_pass dstore items now k,
    save_dispatches_true dstore items now,
    save_planet_events_fail estore items now k,
    save_planet_events_pass estore items now k,
    save_planet_events_true estore items now,
    rfl, rfl⟩

/-- C3, witness: singleton batches with a fault at their only executed
upsert commit nothing, for all three batch saves. -/
theorem c3_witness :
    assignExecCount [Json.obj [("id", .num 3)]] = 1
    ∧ save_assignments [] [Json.obj [("id", .num 3)]] 4 (some 0) = ([], false)
    ∧ save_dispatches [] [Json.obj [("id", .num 3)]] 4 (some 0) = ([], false)
    ∧ save_planet_events [] [Json.obj [("id", .num 3), ("planetIndex", .num 2)]] 4
        (some 0) = ([], false) :=
  ⟨rfl,
    (c3_transaction_scope [] [] [] [] [Json.obj [("id", .num 3)]] 4 0 0 .null 0).1
      (by decide),
    (c3_transaction_scope [] [] [] [] [Json.obj [("id", .num 3)]] 4 0 0 .null 0).2.2.2.1
      (by decide),
    (c3_transaction_scope [] [] [] [] [Json.obj [("id", .num 3), ("planetIndex", .num 2)]]
      4 0 0 .null 0).2.2.2.2.2.2.1 (by decide)⟩

/-- There is a most recent planet timestamp exactly when rows exist. -/
theorem maxTimestamp?_eq_none_iff (store : List PlanetRow) :
    maxTimestamp? store = none ↔ store = [] := by
  cases store with
  | nil => simp [maxTimestamp?]
  | cons r rest =>
      simp only [maxTimestamp?]
      cases maxTimestamp? rest <;> simp

/-- One step of `maxTimestamp?`. -/
theorem maxTimestamp?_cons (r : PlanetRow) (rest : List PlanetRow) :
    maxTimestamp? (r :: rest) =
      match maxTimestamp? rest with
      | none => some r.timestamp
      | some t => some (max r.timestamp t) := rfl

/-- The most recent planet timestamp is an attained upper bound. -/
theorem maxTimestamp?_spec (store : List PlanetRow) :
    ∀ t, maxTimestamp? store = some t →
      (∀ r ∈ store, r.timestamp ≤ t) ∧ ∃ r ∈ store, r.timestamp = t := by
  induction store with
  | nil => intro t h; exact absurd h (by simp [maxTimestamp?])
  | cons r rest ih =>
      intro t h
      cases hr : maxTimestamp? rest with
      | none =>
          rw [maxTimestamp?_cons, hr] at h
          obtain rfl : r.timestamp = t := Option.some.inj h
          have hrest : rest = [] := (maxTimestamp?_eq_none_iff rest).mp hr
          subst hrest
          exact ⟨fun s hs => by rw [List.mem_singleton.mp hs],
            ⟨r, List.mem_singleton_self r, rfl⟩⟩
      | some t2 =>
          rw [maxTimestamp?_cons, hr] at h
          obtain rfl : max r.timestamp t2 = t := Option.some.inj h
          obtain ⟨ub, s, hs, hst⟩ := ih t2 hr
          constructor
          · intro s2 hs2
            rcases List.mem_cons.mp hs2 with rfl | hmem
            · exact le_max_left _ _
            · exact le_trans (ub s2 hmem) (le_max_right _ _)
          · rcases max_choice r.timestamp t2 with hm | hm
            · exact ⟨r, List.mem_cons_self _ _, hm.symm⟩
            · exact ⟨s, List.mem_cons_of_mem _ hs, by rw [hst, hm]⟩

/-- Unfolding of the fault-free `get_latest_planets_snapshot`. -/
theorem get_latest_planets_snapshot_ok (store : List PlanetRow) :
    get_latest_planets_snapshot store false =
      match maxTimestamp? store with
      | none => none
      | some latest =>
          let planets := (List.insertionSort (fun a b => a.planet_index ≤ b.planet_index)
            (store.filter (fun r => r.timestamp = latest))).map (fun r => r.data)
          if planets.isEmpty then none else some planets := rfl

/-- C4: `get_latest_planets_snapshot` returns `none` exactly when no
planet rows exist, and otherwise returns a nonempty list consisting of
exactly the rows carrying the single most recent timestamp, ordered
ascending by `planet_index`. -/
theorem c4_latest_planets_snapshot (store : List PlanetRow) :
    (get_latest_planets_snapshot store false = none ↔ store = [])
    ∧ ∀ l, get_latest_planets_snapshot store false = some l →
        l ≠ [] ∧ ∃ (ts : Int) (rows : List PlanetRow),
          (∀ r ∈ store, r.timestamp ≤ ts) ∧ (∃ r ∈ store, r.timestamp = ts)
          ∧ rows.Perm (store.filter (fun r => r.timestamp = ts))
          ∧ rows.Pairwise (fun a b => a.planet_index ≤ b.planet_index)
          ∧ l = rows.map (fun r => r.data) := by
  constructor
  · constructor
    · intro h
      by_contra hne
      cases hmax : maxTimestamp? store with
      | none => exact hne ((maxTimestamp?_eq_none_iff store).mp hmax)
      | some t =>
          obtain ⟨ub, r, hr, hts⟩ := maxTimestamp?_spec store t hmax
          rw [get_latest_planets_snapshot_ok, hmax] at h
          dsimp only at h
          have hmem : r.data ∈ (List.insertionSort (fun a b => a.planet_index ≤ b.planet_index)
              (store.filter (fun r => r.timestamp = t))).map (fun r => r.data) :=
            List.mem_map.mpr ⟨r,
              (List.Perm.mem_iff (List.perm_insertionSort _ _)).mpr
                (List.mem_filter.mpr ⟨hr, by simp [hts]⟩), rfl⟩
          have hne2 : (List.insertionSort (fun a b => a.planet_index ≤ b.planet_index)
              (store.filter (fun r => r.timestamp = t))).map (fun r => r.data) ≠ [] :=
            fun hnil => by rw [hnil] at hmem; exact List.not_mem_nil _ hmem
          obtain ⟨x, xs, hxs⟩ := List.exists_cons_of_ne_nil hne2
          rw [hxs] at h
          simp at h
    · intro h; subst h; rfl
  · intro l hl
    cases hmax : maxTimestamp? store with
    | none =>
        rw [get_latest_planets_snapshot_ok, hmax] at hl
        exact absurd hl (by simp)
    | some t =>
        obtain ⟨ub, hex⟩ := maxTimestamp?_spec store t hmax
        rw [get_latest_planets_snapshot_ok, hmax] at hl
        dsimp only at hl
        by_cases hemp : ((List.insertionSort (fun a b => a.planet_index ≤ b.planet_index)
            (store.filter (fun r => r.timestamp = t))).map (fun r => r.data)).isEmpty
        · rw [if_pos hemp] at hl
          exact absurd hl (by simp)
        · rw [if_neg hemp] at hl
          obtain rfl := Option.some.inj hl
          refine ⟨by simpa using hemp, t, _, ub, hex,
            List.perm_insertionSort _ _, ?_, rfl⟩
          exact List.sorted_insertionSort _ _

/-- C4, witness: a one-row store yields the snapshot of that row. -/
theorem c4_witness :
    ([Json.str "x"] : List Json) ≠ []
    ∧ ∃ (ts : Int) (rows : List PlanetRow),
        (∀ r ∈ [(⟨5, Json.str "x", 3⟩ : PlanetRow)], r.timestamp ≤ ts)
        ∧ (∃ r ∈ [(⟨5, Json.str "x", 3⟩ : PlanetRow)], r.timestamp = ts)
        ∧ rows.Perm (([(⟨5, Json.str "x", 3⟩ : PlanetRow)]).filter
            (fun r => r.timestamp = ts))
        ∧ rows.Pairwise (fun a b => a.planet_index ≤ b.planet_index)
        ∧ [Json.str "x"] = rows.map (fun r => r.data) :=
  (c4_latest_planets_snapshot [⟨5, .str "x", 3⟩]).2 [Json.str "x"] rfl

/-- Unfolding of the fault-free `save_planet_status`. -/
theorem save_planet_status_ok (store : List PlanetRow) (idx : Int) (d : Json) (t : Int) :
    save_planet_status store idx d t false =
      if store.any (fun r => r.planet_index = idx) then
        (store.map (fun r =>
          if r.planet_index = idx then { r with data := d, timestamp := t } else r), true)
      else (store ++ [⟨idx, d, t⟩], true) := rfl

/-- The planet upsert's update branch does not change any key. -/
theorem upsertPlanet_key_eq (idx : Int) (d : Json) (t : Int) (r : PlanetRow) :
    (if r.planet_index = idx then { r with data := d, timestamp := t } else r).planet_index
      = r.planet_index := by
  by_cases hc : r.planet_index = idx <;> simp [hc]

/-- In the update branch, exactly one row matches the key after the
write, provided keys were unique before. -/
theorem upsert_map_filter_len (idx : Int) (d : Json) (t : Int) :
    ∀ store : List PlanetRow, (store.map (fun r => r.planet_index)).Nodup →
      store.any (fun r => r.planet_index = idx) = true →
      ((store.map (fun r =>
          if r.planet_index = idx then { r with data := d, timestamp := t } else r)).filter
        (fun r => r.planet_index = idx)).length = 1 := by
  intro store
  induction store with
  | nil => intro _ hany; simp at hany
  | cons r rest ih =>
      intro hnd hany
      rw [List.map_cons] at hnd
      have hnd2 := List.nodup_cons.mp hnd
      simp only [List.map_cons, List.filter_cons]
      by_cases hc : r.planet_index = idx
      · rw [if_pos hc]
        rw [if_pos (show decide (({ r with data := d, timestamp := t } : PlanetRow).planet_index = idx) = true from decide_eq_true hc)]
        have hfil : ((rest.map (fun r =>
            if r.planet_index = idx then { r with data := d, timestamp := t } else r)).filter
            (fun r => r.planet_index = idx)) = [] := by
          apply List.filter_eq_nil_iff.mpr
          intro x hx
          obtain ⟨s, hs, rfl⟩ := List.mem_map.mp hx
          intro hpx
          have hsk : s.planet_index = idx := by
            rw [← upsertPlanet_key_eq idx d t s]
            exact of_decide_eq_true hpx
          exact hnd2.1 (List.mem_map.mpr
            ⟨s, hs, show s.planet_index = r.planet_index by rw [hsk, hc]⟩)
        rw [hfil]
        rfl
      · rw [if_neg hc]
        rw [if_neg (show ¬ decide (r.planet_index = idx) = true by simp [hc])]
        have hany2 : rest.any (fun r => r.planet_index = idx) = true := by
          rcases List.any_eq_true.mp hany with ⟨s, hs, hsp⟩
          rcases List.mem_cons.mp hs with rfl | hmem
          · exact absurd (of_decide_eq_true hsp) hc
          · exact List.any_eq_true.mpr ⟨s, hmem, hsp⟩
        exact ih hnd2.2 hany2

/-- The planet upsert keeps natural keys unique. -/
theorem save_planet_status_nodup (store : List PlanetRow) (idx : Int) (d : Json) (t : Int)
    (h : (store.map (fun r => r.planet_index)).Nodup) :
    ((save_planet_status store idx d t false).1.map (fun r => r.planet_index)).Nodup := by
  rw [save_planet_status_ok]
  by_cases hany : store.any (fun r => r.planet_index = idx)
  · rw [if_pos hany]
    have hkeys : (store.map (fun r =>
        if r.planet_index = idx then { r with data := d, timestamp := t } else r)).map
          (fun r => r.planet_index) = store.map (fun r => r.planet_index) := by
      rw [List.map_map]
      exact List.map_congr_left (fun r _ => upsertPlanet_key_eq idx d t r)
    dsimp only
    rw [hkeys]
    exact h
  · rw [if_neg hany]
    dsimp only
    simp only [List.map_append, List.map_cons, List.map_nil]
    have hperm : (store.map (fun r => r.planet_index) ++ [idx]).Perm
        (idx :: store.map (fun r => r.planet_index)) := List.perm_append_singleton _ _
    rw [hperm.nodup_iff]
    apply List.nodup_cons.mpr
    refine ⟨?_, h⟩
    intro hmem
    obtain ⟨s, hs, hsk⟩ := List.mem_map.mp hmem
    exact hany (List.any_eq_true.mpr ⟨s, hs, decide_eq_true hsk⟩)

/-- Every row matching the key after a planet upsert carries the freshly
written payload and timestamp. -/
theorem save_planet_status_vals (store : List PlanetRow) (idx : Int) (d : Json) (t : Int) :
    ∀ r ∈ (save_planet_status store idx d t false).1,
      r.planet_index = idx → r.data = d ∧ r.timestamp = t := by
  rw [save_planet_status_ok]
  by_cases hany : store.any (fun r => r.planet_index = idx)
  · rw [if_pos hany]
    intro r hr hk
    obtain ⟨s, _, rfl⟩ := List.mem_map.mp hr
    by_cases hc : s.planet_index = idx
    · rw [if_pos hc]
      exact ⟨rfl, rfl⟩
    · rw [if_neg hc] at hk ⊢
      exact absurd hk hc
  · rw [if_neg hany]
    intro r hr hk
    rcases List.mem_append.mp hr with hr | hr
    · exact absurd (List.any_eq_true.mpr ⟨r, hr, decide_eq_true hk⟩) hany
    · rw [List.mem_singleton.mp hr]
      exact ⟨rfl, rfl⟩

/-- After a planet upsert into a store with unique keys, exactly one row
carries the written key. -/
theorem save_planet_status_len (store : List PlanetRow) (idx : Int) (d : Json) (t : Int)
    (h : (store.map (fun r => r.planet_index)).Nodup) :
    ((save_planet_status store idx d t false).1.filter
      (fun r => r.planet_index = idx)).length = 1 := by
  rw [save_planet_status_ok]
  by_cases hany : store.any (fun r => r.planet_index = idx)
  · rw [if_pos hany]
    exact upsert_map_filter_len idx d t store h hany
  · rw [if_neg hany]
    dsimp only
    rw [List.filter_append]
    have hfil : store.filter (fun r => r.planet_index = idx) = [] := by
      apply List.filter_eq_nil_iff.mpr
      intro s hs hps
      exact hany (List.any_eq_true.mpr ⟨s, hs, hps⟩)
    rw [hfil]
    simp

/-- Unfolding of the fault-free `get_planet_status`. -/
theorem get_planet_status_ok (store : List PlanetRow) (idx : Int) :
    get_planet_status store idx false =
      ((List.insertionSort (fun a b => b.timestamp ≤ a.timestamp)
        (store.filter (fun r => r.planet_index = idx))).head?).map (fun r => r.data) := rfl

/-- When a single row matches the key, `get_planet_status` returns its
payload. -/
theorem get_planet_status_of_single (store : List PlanetRow) (idx : Int) (r0 : PlanetRow)
    (h : store.filter (fun r => r.planet_index = idx) = [r0]) :
    get_planet_status store idx false = some r0.data := by
  rw [get_planet_status_ok, h]
  rfl

/-- C5: writing a planet twice through `save_planet_status` leaves the
store with unique keys, exactly one row for the written index, and that
row carries the last payload and timestamp, which `get_planet_status`
returns. -/
theorem c5_upsert_unique_key (store : List PlanetRow) (idx : Int) (d1 d2 : Json)
    (t1 t2 : Int) (h : (store.map (fun r => r.planet_index)).Nodup) :
    (((save_planet_status (save_planet_status store idx d1 t1 false).1 idx d2 t2
        false).1.map (fun r => r.planet_index)).Nodup)
    ∧ ((save_planet_status (save_planet_status store idx d1 t1 false).1 idx d2 t2
        false).1.filter (fun r => r.planet_index = idx)).length = 1
    ∧ (∀ r ∈ (save_planet_status (save_planet_status store idx d1 t1 false).1 idx d2 t2
        false).1, r.planet_index = idx → r.data = d2 ∧ r.timestamp = t2)
    ∧ get_planet_status (save_planet_status (save_planet_status store idx d1 t1 false).1
        idx d2 t2 false).1 idx false = some d2 := by
  have h1 := save_planet_status_nodup store idx d1 t1 h
  have h2 := save_planet_status_nodup _ idx d2 t2 h1
  have hlen := save_planet_status_len _ idx d2 t2 h1
  have hvals := save_planet_status_vals (save_planet_status store idx d1 t1 false).1 idx d2 t2
  refine ⟨h2, hlen, hvals, ?_⟩
  obtain ⟨r0, hr0⟩ := List.length_eq_one.mp hlen
  have hr0mem : r0 ∈ (save_planet_status (save_planet_status store idx d1 t1 false).1
      idx d2 t2 false).1.filter (fun r => r.planet_index = idx) := by
    rw [hr0]; exact List.mem_singleton_self _
  obtain ⟨hmem, hkey⟩ := List.mem_filter.mp hr0mem
  have hd := hvals r0 hmem (of_decide_eq_true hkey)
  rw [get_planet_status_of_single _ idx r0 hr0, hd.1]

/-- C5, witness: saving planet 5 with name X then name Y in an empty
store leaves one row whose latest read returns the Y payload. -/
theorem c5_witness :
    (((save_planet_status (save_planet_status [] 5 (.obj [("name", .str "X")]) 1
        false).1 5 (.obj [("name", .str "Y")]) 2 false).1.map
        (fun r => r.planet_index)).Nodup)
    ∧ ((save_planet_status (save_planet_status [] 5 (.obj [("name", .str "X")]) 1
        false).1 5 (.obj [("name", .str "Y")]) 2 false).1.filter
        (fun r => r.planet_index = 5)).length = 1
    ∧ (∀ r ∈ (save_planet_status (save_planet_status [] 5 (.obj [("name", .str "X")]) 1
        false).1 5 (.obj [("name", .str "Y")]) 2 false).1,
        r.planet_index = 5 → r.data = .obj [("name", .str "Y")] ∧ r.timestamp = 2)
    ∧ get_planet_status (save_planet_status (save_planet_status [] 5
        (.obj [("name", .str "X")]) 1 false).1 5 (.obj [("name", .str "Y")]) 2 false).1
        5 false = some (.obj [("name", .str "Y")]) :=
  c5_upsert_unique_key [] 5 (.obj [("name", .str "X")]) (.obj [("name", .str "Y")]) 1 2
    (by simp)

/-- There is a latest war-status row exactly when rows exist. -/
theorem latestWarRow?_eq_none_iff (store : List WarRow) :
    latestWarRow? store = none ↔ store = [] := by
  cases store with
  | nil => simp [latestWarRow?]
  | cons r rest =>
      simp only [latestWarRow?]
      cases latestWarRow? rest with
      | none => simp
      | some best => by_cases h : best.timestamp < r.timestamp <;> simp [h]

/-- One step of `latestWarRow?`. -/
theorem latestWarRow?_cons (r : WarRow) (rest : List WarRow) :
    latestWarRow? (r :: rest) =
      match latestWarRow? rest with
      | none => some r
      | some best => if best.timestamp < r.timestamp then some r else some best := rfl

/-- The latest war-status row is a stored row with maximal timestamp. -/
theorem latestWarRow?_spec (store : List WarRow) :
    ∀ row, latestWarRow? store = some row →
      row ∈ store ∧ ∀ r ∈ store, r.timestamp ≤ row.timestamp := by
  induction store with
  | nil => intro row h; exact absurd h (by simp [latestWarRow?])
  | cons r rest ih =>
      intro row h
      cases hr : latestWarRow? rest with
      | none =>
          rw [latestWarRow?_cons, hr] at h
          obtain rfl := Option.some.inj h
          have hrest : rest = [] := (latestWarRow?_eq_none_iff rest).mp hr
          subst hrest
          exact ⟨List.mem_singleton_self _,
            fun s hs => by rw [List.mem_singleton.mp hs]⟩
      | some best =>
          rw [latestWarRow?_cons, hr] at h
          obtain ⟨bmem, bub⟩ := ih best hr
          dsimp only at h
          by_cases hlt : best.timestamp < r.timestamp
          · rw [if_pos hlt] at h
            obtain rfl := Option.some.inj h
            refine ⟨List.mem_cons_self _ _, ?_⟩
            intro s hs
            rcases List.mem_cons.mp hs with rfl | hmem
            · exact le_refl _
            · exact le_trans (bub s hmem) (le_of_lt hlt)
          · rw [if_neg hlt] at h
            obtain rfl := Option.some.inj h
            refine ⟨List.mem_cons_of_mem _ bmem, ?_⟩
            intro s hs
            rcases List.mem_cons.mp hs with rfl | hmem
            · exact not_lt.mp hlt
            · exact bub s hmem

/-- Unfolding of the fault-free `get_latest_factions_snapshot`. -/
theorem get_latest_factions_snapshot_ok (store : List WarRow) :
    get_latest_factions_snapshot store false =
      match latestWarRow? store with
      | none => none
      | some row =>
          match row.data.get "factions" with
          | none => none
          | some Json.null => none
          | some v => some v := rfl

/-- One step of the biome-accumulation loop. -/
theorem collectBiomes_cons (acc : List (Json × Json)) (row : PlanetRow)
    (rest : List PlanetRow) :
    collectBiomes acc (row :: rest) =
      match row.data.get "biome" with
      | some (Json.obj fs) =>
          (match (Json.obj fs).get "name" with
           | some biome_name =>
               if pyTruthy biome_name && !(acc.any (fun p => Json.beq p.1 biome_name)) then
                 collectBiomes (acc ++ [(biome_name, Json.obj fs)]) rest
               else collectBiomes acc rest
           | none => collectBiomes acc rest)
      | _ => collectBiomes acc rest := by
  cases hb : row.data.get "biome" with
  | none => simp [collectBiomes, hb]
  | some v => cases v <;> simp [collectBiomes, hb]

/-- The accumulated biome dictionary keeps its keys pairwise distinct. -/
theorem collectBiomes_pairwise :
    ∀ (rows : List PlanetRow) (acc : List (Json × Json)),
      acc.Pairwise (fun p q => Json.beq p.1 q.1 = false) →
      (collectBiomes acc rows).Pairwise (fun p q => Json.beq p.1 q.1 = false) := by
  intro rows
  induction rows with
  | nil => intro acc h; exact h
  | cons row rest ih =>
      intro acc h
      rw [collectBiomes_cons]
      cases hb : row.data.get "biome" with
      | none => exact ih acc h
      | some v =>
          cases v with
          | obj fs =>
              dsimp only
              cases hn : (Json.obj fs).get "name" with
              | none => exact ih acc h
              | some nm =>
                  dsimp only
                  by_cases hcond : pyTruthy nm && !(acc.any (fun p => Json.beq p.1 nm))
                  · rw [if_pos hcond]
                    apply ih
                    have hany : acc.any (fun p => Json.beq p.1 nm) = false := by
                      rcases Bool.and_eq_true_iff.mp hcond with ⟨_, hn2⟩
                      simpa using hn2
                    apply List.pairwise_append.mpr
                    refine ⟨h, List.pairwise_singleton _ _, ?_⟩
                    intro p hp q hq
                    rw [List.mem_singleton.mp hq]
                    simpa using List.any_eq_false.mp hany p hp
                  · rw [if_neg hcond]
                    exact ih acc h
          | null => exact ih acc h
          | bool b => exact ih acc h
          | num n => exact ih acc h
          | str s => exact ih acc h
          | arr xs => exact ih acc h

/-- Every accumulated biome comes from the scanned rows (or from the
initial accumulator): its stored entry is the row's `biome` object and
its key is that object's truthy `name`. -/
theorem collectBiomes_prov :
    ∀ (rows : List PlanetRow) (acc : List (Json × Json)),
      ∀ p ∈ collectBiomes acc rows, p ∈ acc ∨
        ∃ r ∈ rows, r.data.get "biome" = some p.2
          ∧ p.2.get "name" = some p.1 ∧ pyTruthy p.1 = true := by
  intro rows
  induction rows with
  | nil => intro acc p hp; exact Or.inl hp
  | cons row rest ih =>
      intro acc p hp
      rw [collectBiomes_cons] at hp
      have lift : p ∈ collectBiomes acc rest → p ∈ acc ∨
          ∃ r ∈ row :: rest, r.data.get "biome" = some p.2
            ∧ p.2.get "name" = some p.1 ∧ pyTruthy p.1 = true := by
        intro hp2
        rcases ih acc p hp2 with h | ⟨r, hr, hx⟩
        · exact Or.inl h
        · exact Or.inr ⟨r, List.mem_cons_of_mem _ hr, hx⟩
      cases hb : row.data.get "biome" with
      | none => rw [hb] at hp; exact lift hp
      | some v =>
          rw [hb] at hp
          cases v with
          | obj fs =>
              dsimp only at hp
              cases hn : (Json.obj fs).get "name" with
              | none => rw [hn] at hp; exact lift hp
              | some nm =>
                  rw [hn] at hp
                  dsimp only at hp
                  by_cases hcond : pyTruthy nm && !(acc.any (fun p => Json.beq p.1 nm))
                  · rw [if_pos hcond] at hp
                    rcases ih _ p hp with h | ⟨r, hr, hx⟩
                    · rcases List.mem_append.mp h with h2 | h2
                      · exact Or.inl h2
                      · rw [List.mem_singleton.mp h2]
                        refine Or.inr ⟨row, List.mem_cons_self _ _, hb, hn, ?_⟩
                        exact (Bool.and_eq_true_iff.mp hcond).1
                    · exact Or.inr ⟨r, List.mem_cons_of_mem _ hr, hx⟩
                  · rw [if_neg hcond] at hp
                    exact lift hp
          | null => exact lift hp
          | bool b => exact lift hp
          | num n => exact lift hp
          | str s => exact lift hp
          | arr xs => exact lift hp

/-- Unfolding of the fault-free `get_latest_biomes_snapshot`. -/
theorem get_latest_biomes_snapshot_ok (store : List PlanetRow) :
    get_latest_biomes_snapshot store false =
      match maxTimestamp? store with
      | none => none
      | some latest =>
          let rows := store.filter (fun r => r.timestamp = latest)
          if rows.isEmpty then none
          else
            let biomes := collectBiomes [] rows
            if biomes.isEmpty then none else some (biomes.map (fun p => p.2)) := rfl

/-- C6: the factions view is the `factions` field of the newest
war-status payload and the biomes view lists the biome objects of the
newest planet snapshot with pairwise-distinct truthy names; both views
return `none` when their underlying table is empty. -/
theorem c6_derived_views (wstore : List WarRow) (pstore : List PlanetRow) :
    (wstore = [] → get_latest_factions_snapshot wstore false = none)
    ∧ (∀ l, get_latest_factions_snapshot wstore false = some l →
        ∃ row, row ∈ wstore ∧ latestWarRow? wstore = some row
          ∧ (∀ r ∈ wstore, r.timestamp ≤ row.timestamp)
          ∧ row.data.get "factions" = some l)
    ∧ (pstore = [] → get_latest_biomes_snapshot pstore false = none)
    ∧ (∀ l, get_latest_biomes_snapshot pstore false = some l →
        l ≠ [] ∧ ∃ pairs : List (Json × Json),
          l = pairs.map (fun p => p.2)
          ∧ pairs.Pairwise (fun p q => Json.beq p.1 q.1 = false)
          ∧ ∀ p ∈ pairs, ∃ ts r, maxTimestamp? pstore = some ts ∧ r ∈ pstore
              ∧ r.timestamp = ts ∧ r.data.get "biome" = some p.2
              ∧ p.2.get "name" = some p.1 ∧ pyTruthy p.1 = true) := by
  refine ⟨?_, ?_, ?_, ?_⟩
  · intro h; subst h; rfl
  · intro l hl
    rw [get_latest_factions_snapshot_ok] at hl
    cases hrow : latestWarRow? wstore with
    | none => rw [hrow] at hl; exact absurd hl (by simp)
    | some row =>
        rw [hrow] at hl
        obtain ⟨hmem, hub⟩ := latestWarRow?_spec wstore row hrow
        dsimp only at hl
        cases hf : row.data.get "factions" with
        | none => rw [hf] at hl; exact absurd hl (by simp)
        | some v =>
            rw [hf] at hl
            cases v with
            | null => exact absurd hl (by simp)
            | bool b => exact ⟨row, hmem, rfl, hub, by rw [hf, Option.some.inj hl]⟩
            | num n => exact ⟨row, hmem, rfl, hub, by rw [hf, Option.some.inj hl]⟩
            | str s => exact ⟨row, hmem, rfl, hub, by rw [hf, Option.some.inj hl]⟩
            | arr xs => exact ⟨row, hmem, rfl, hub, by rw [hf, Option.some.inj hl]⟩
            | obj fs => exact ⟨row, hmem, rfl, hub, by rw [hf, Option.some.inj hl]⟩
  · intro h; subst h; rfl
  · intro l hl
    rw [get_latest_biomes_snapshot_ok] at hl
    cases hmax : maxTimestamp? pstore with
    | none => rw [hmax] at hl; exact absurd hl (by simp)
    | some t =>
        rw [hmax] at hl
        dsimp only at hl
        by_cases hre : (pstore.filter (fun r => r.timestamp = t)).isEmpty
        · rw [if_pos hre] at hl; exact absurd hl (by simp)
        · rw [if_neg hre] at hl
          by_cases hbe : (collectBiomes [] (pstore.filter (fun r => r.timestamp = t))).isEmpty
          · rw [if_pos hbe] at hl; exact absurd hl (by simp)
          · rw [if_neg hbe] at hl
            obtain rfl := Option.some.inj hl
            refine ⟨?_, collectBiomes [] (pstore.filter (fun r => r.timestamp = t)), rfl,
              collectBiomes_pairwise _ [] List.Pairwise.nil, ?_⟩
            · intro hnil
              rw [List.map_eq_nil_iff.mp hnil] at hbe
              exact hbe rfl
            · intro p hp
              rcases collectBiomes_prov _ [] p hp with h | ⟨r, hr, h1, h2, h3⟩
              · exact absurd h (List.not_mem_nil p)
              · obtain ⟨hrp, hrt⟩ := List.mem_filter.mp hr
                exact ⟨t, r, rfl, hrp, of_decide_eq_true hrt, h1, h2, h3⟩

/-- C6, witness: a single war-status row and a single planet row feed
both derived views. -/
theorem c6_witness :
    (∃ row, row ∈ [(⟨.obj [("factions", .arr [.str "Humans"])], 1⟩ : WarRow)]
      ∧ latestWarRow? [(⟨.obj [("factions", .arr [.str "Humans"])], 1⟩ : WarRow)] = some row
      ∧ (∀ r ∈ [(⟨.obj [("factions", .arr [.str "Humans"])], 1⟩ : WarRow)],
          r.timestamp ≤ row.timestamp)
      ∧ row.data.get "factions" = some (.arr [.str "Humans"]))
    ∧ get_latest_factions_snapshot ([] : List WarRow) false = none := by
  refine ⟨(c6_derived_views [⟨.obj [("factions", .arr [.str "Humans"])], 1⟩] []).2.1
    (.arr [.str "Humans"]) rfl, ?_⟩
  exact (c6_derived_views [] []).1 rfl

/-- C7: with a fault raised by the lower layer, every modelled save
returns `false` with the store unchanged, every single-object read
returns `none`, and every list read returns `[]` — no operation
propagates the fault. -/
theorem c7_fault_conversion (wstore : List WarRow) (pstore : List PlanetRow)
    (cstore : List CampaignRow) (astore : List AssignmentRow)
    (dstore : List DispatchRow) (estore : List PlanetEventRow)
    (sstore : List SystemStatusRow)
    (d : Json) (items : List Json) (now : Int) (idx cid pidx : Int)
    (key v : String) (k : Nat) (avail : Bool) :
    save_war_status wstore d now true = (wstore, false)
    ∧ save_planet_status pstore idx d now true = (pstore, false)
    ∧ save_campaign cstore cid pidx d now true = (cstore, false)
    ∧ update_system_status sstore key v now true = (sstore, false)
    ∧ set_upstream_status sstore avail now true = (sstore, false)
    ∧ (k < assignExecCount items →
        save_assignments astore items now (some k) = (astore, false))
    ∧ (k < dispatchExecCount items →
        save_dispatches dstore items now (some k) = (dstore, false))
    ∧ (k < eventExecCount items →
        save_planet_events estore items now (some k) = (estore, false))
    ∧ get_planet_status pstore idx true = none
    ∧ get_latest_war_status wstore true = none
    ∧ get_active_campaigns cstore now true = []
    ∧ get_latest_planets_snapshot pstore true = none
    ∧ get_latest_factions_snapshot wstore true = none
    ∧ get_latest_biomes_snapshot pstore true = none
    ∧ get_system_status sstore key true = none
    ∧ get_upstream_status sstore true = false :=
  ⟨rfl, rfl, rfl, rfl, rfl, save_assignments_fail astore items now k,
   save_dispatches_fail dstore items now k,
   save_planet_events_fail estore items now k, rfl, rfl, rfl, rfl, rfl, rfl, rfl, rfl⟩

/-- C7, witness: fault conversion at concrete stores, with the batch
fault hypotheses discharged. -/
theorem c7_witness :
    save_war_status [] .null 0 true = ([], false)
    ∧ save_assignments [] [.obj [("id", .num 8)]] 0 (some 0) = ([], false)
    ∧ save_dispatches [] [.obj [("id", .num 8)]] 0 (some 0) = ([], false) :=
  ⟨(c7_fault_conversion [] [] [] [] [] [] [] .null [] 0 0 0 0 "k" "v" 0 true).1,
   (c7_fault_conversion [] [] [] [] [] [] [] .null [.obj [("id", .num 8)]] 0 0 0 0 "k"
     "v" 0 true).2.2.2.2.2.1 (by decide),
   (c7_fault_conversion [] [] [] [] [] [] [] .null [.obj [("id", .num 8)]] 0 0 0 0 "k"
     "v" 0 true).2.2.2.2.2.2.1 (by decide)⟩

/-- C8, counterexample: an item whose identity field is present but
falsy (`id: 0`) is not persisted — the call still reports success —
although the claimed rule skips only items missing the field. -/
theorem c8_counterexample :
    (Json.obj [("id", .num 0), ("title", .str "t")]).get "id" = some (.num 0)
    ∧ save_assignments [] [.obj [("id", .num 0), ("title", .str "t")]] 7 none = ([], true) :=
  ⟨rfl, rfl⟩

/-- C8 (amended): all three batch saves apply one upsert per executable
item — one whose identity field is truthy and, for planet events, whose
planet index is also truthy — skip without error any item whose
identity field is missing or falsy (absent, `null`, `0`, `""`), and
return `true` when no exception propagates; every executable item is
represented in the committed store. -/
theorem c8_batch_saves (astore : List AssignmentRow) (dstore : List DispatchRow)
    (estore : List PlanetEventRow) (items l1 l2 : List Json) (a : Json) (now : Int) :
    (save_assignments astore items now none).2 = true
    ∧ (save_dispatches dstore items now none).2 = true
    ∧ (save_planet_events estore items now none).2 = true
    ∧ (truthyOpt (a.get "id") = false →
        save_assignments astore (l1 ++ a :: l2) now none =
          save_assignments astore (l1 ++ l2) now none)
    ∧ (truthyOpt (a.get "id") = false →
        save_dispatches dstore (l1 ++ a :: l2) now none =
          save_dispatches dstore (l1 ++ l2) now none)
    ∧ (truthyOpt (a.get "id") = false →
        save_planet_events estore (l1 ++ a :: l2) now none =
          save_planet_events estore (l1 ++ l2) now none)
    ∧ (∀ b ∈ items, truthyOpt (b.get "id") = true →
        ∃ r ∈ (save_assignments astore items now none).1,
          Json.beq r.assignment_id ((b.get "id").getD .null) = true)
    ∧ (∀ b ∈ items, truthyOpt (b.get "id") = true →
        ∃ r ∈ (save_dispatches dstore items now none).1,
          Json.beq r.dispatch_id ((b.get "id").getD .null) = true)
    ∧ ∀ b ∈ items, (truthyOpt (b.get "id") && truthyOpt (eventPlanetIndex b)) = true →
        ∃ r ∈ (save_planet_events estore items now none).1,
          Json.beq r.event_id ((b.get "id").getD .null) = true := by
  refine ⟨by rw [save_assignments_ok], save_dispatches_true _ _ _,
    save_planet_events_true _ _ _, ?_, ?_, ?_, ?_, ?_, ?_⟩
  · intro ha
    unfold save_assignments
    rw [saveAssignmentsLoop_skip a ha l1]
  · intro ha
    unfold save_dispatches
    rw [saveDispatchesLoop_skip a ha l1]
  · intro ha
    unfold save_planet_events
    rw [savePlanetEventsLoop_skip_id a ha l1]
  · intro b hb htr
    rw [save_assignments_ok]
    exact applyAssignments_mem_key items astore now b hb htr
  · intro b hb htr
    rw [save_dispatches_ok]
    exact applyDispatches_mem_key items dstore now b hb htr
  · intro b hb htr
    rw [save_planet_events_ok]
    exact applyPlanetEvents_mem_key items estore now b hb htr

/-- C8, witness: a batch of one id-less item and one well-formed item
behaves as the well-formed item alone, which is persisted, for all three
batch saves. -/
theorem c8_witness :
    truthyOpt ((Json.obj [("note", .str "no id")]).get "id") = false
    ∧ save_assignments [] [.obj [("note", .str "no id")], .obj [("id", .num 4)]] 3 none
        = save_assignments [] [.obj [("id", .num 4)]] 3 none
    ∧ save_dispatches [] [.obj [("note", .str "no id")], .obj [("id", .num 4)]] 3 none
        = save_dispatches [] [.obj [("id", .num 4)]] 3 none
    ∧ save_planet_events [] [.obj [("note", .str "no id")],
        .obj [("id", .num 4), ("planetIndex", .num 2)]] 3 none
        = save_planet_events [] [.obj [("id", .num 4), ("planetIndex", .num 2)]] 3 none
    ∧ truthyOpt ((Json.obj [("id", .num 4)]).get "id") = true
    ∧ (∃ r ∈ (save_assignments [] [.obj [("note", .str "no id")],
          .obj [("id", .num 4)]] 3 none).1,
        Json.beq r.assignment_id (((Json.obj [("id", .num 4)]).get "id").getD .null)
          = true)
    ∧ (∃ r ∈ (save_dispatches [] [.obj [("note", .str "no id")],
          .obj [("id", .num 4)]] 3 none).1,
        Json.beq r.dispatch_id (((Json.obj [("id", .num 4)]).get "id").getD .null)
          = true)
    ∧ ∃ r ∈ (save_planet_events [] [.obj [("note", .str "no id")],
          .obj [("id", .num 4), ("planetIndex", .num 2)]] 3 none).1,
        Json.beq r.event_id
          (((Json.obj [("id", .num 4), ("planetIndex", .num 2)]).get "id").getD .null)
          = true := by
  refine ⟨by decide, ?_, ?_, ?_, by decide, ?_, ?_, ?_⟩
  · exact (c8_batch_saves [] [] [] [] [] [.obj [("id", .num 4)]]
      (.obj [("note", .str "no id")]) 3).2.2.2.1 (by decide)
  · exact (c8_batch_saves [] [] [] [] [] [.obj [("id", .num 4)]]
      (.obj [("note", .str "no id")]) 3).2.2.2.2.1 (by decide)
  · exact (c8_batch_saves [] [] [] [] []
      [.obj [("id", .num 4), ("planetIndex", .num 2)]]
      (.obj [("note", .str "no id")]) 3).2.2.2.2.2.1 (by decide)
  · exact (c8_batch_saves [] [] [] [.obj [("note", .str "no id")], .obj [("id", .num 4)]]
      [] [] (.obj [("note", .str "no id")]) 3).2.2.2.2.2.2.1 (.obj [("id", .num 4)])
      (List.mem_cons_of_mem _ (List.mem_singleton_self _)) (by decide)
  · exact (c8_batch_saves [] [] [] [.obj [("note", .str "no id")], .obj [("id", .num 4)]]
      [] [] (.obj [("note", .str "no id")]) 3).2.2.2.2.2.2.2.1 (.obj [("id", .num 4)])
      (List.mem_cons_of_mem _ (List.mem_singleton_self _)) (by decide)
  · exact (c8_batch_saves [] [] [] [.obj [("note", .str "no id")],
      .obj [("id", .num 4), ("planetIndex", .num 2)]] [] []
      (.obj [("note", .str "no id")]) 3).2.2.2.2.2.2.2.2
      (.obj [("id", .num 4), ("planetIndex", .num 2)])
      (List.mem_cons_of_mem _ (List.mem_singleton_self _)) (by decide)

/-- C9: `save_planet_events` stores the same identity and type columns
for the snake_case and the camelCase spelling of the same logical item,
and an item with neither planet-index variant is skipped. -/
theorem c9_planet_event_naming (idv piv etv e : Json) (store : List PlanetEventRow)
    (l1 l2 : List Json) (now : Int) (failAt : Option Nat)
    (h1 : pyTruthy idv = true) (h2 : pyTruthy piv = true) :
    (save_planet_events []
        [.obj [("id", idv), ("planet_index", piv), ("event_type", etv)]] now none).1
      = [⟨idv, piv, etv, .obj [("id", idv), ("planet_index", piv), ("event_type", etv)],
          now⟩]
    ∧ (save_planet_events []
        [.obj [("id", idv), ("planetIndex", piv), ("eventType", etv)]] now none).1
      = [⟨idv, piv, etv, .obj [("id", idv), ("planetIndex", piv), ("eventType", etv)],
          now⟩]
    ∧ (eventPlanetIndex e = none →
        save_planet_events store (l1 ++ e :: l2) now failAt =
          save_planet_events store (l1 ++ l2) now failAt) := by
  refine ⟨?_, ?_, ?_⟩
  · have hloop : savePlanetEventsLoop []
        [.obj [("id", idv), ("planet_index", piv), ("event_type", etv)]] now none 0
        = some [⟨idv, piv, etv,
            .obj [("id", idv), ("planet_index", piv), ("event_type", etv)], now⟩] := by
      rw [savePlanetEventsLoop_cons]
      rw [if_pos (show (truthyOpt ((Json.obj [("id", idv), ("planet_index", piv),
          ("event_type", etv)]).get "id") && truthyOpt (eventPlanetIndex
          (.obj [("id", idv), ("planet_index", piv), ("event_type", etv)]))) = true by
        show (pyTruthy idv && pyTruthy piv) = true
        rw [h1, h2]
        rfl)]
      rw [if_neg (by simp)]
      rfl
    unfold save_planet_events
    rw [hloop]
  · have hloop : savePlanetEventsLoop []
        [.obj [("id", idv), ("planetIndex", piv), ("eventType", etv)]] now none 0
        = some [⟨idv, piv, etv,
            .obj [("id", idv), ("planetIndex", piv), ("eventType", etv)], now⟩] := by
      rw [savePlanetEventsLoop_cons]
      rw [if_pos (show (truthyOpt ((Json.obj [("id", idv), ("planetIndex", piv),
          ("eventType", etv)]).get "id") && truthyOpt (eventPlanetIndex
          (.obj [("id", idv), ("planetIndex", piv), ("eventType", etv)]))) = true by
        show (pyTruthy idv && pyTruthy piv) = true
        rw [h1, h2]
        rfl)]
      rw [if_neg (by simp)]
      rfl
    unfold save_planet_events
    rw [hloop]
  · intro he
    unfold save_planet_events
    rw [savePlanetEventsLoop_skip e he l1]

/-- C9, witness: the two spellings of the same concrete event store
identical identity and type columns, and an event with no planet index
is skipped. -/
theorem c9_witness :
    (save_planet_events [] [.obj [("id", .num 9), ("planet_index", .num 4),
        ("event_type", .str "defense")]] 6 none).1
      = [⟨.num 9, .num 4, .str "defense", .obj [("id", .num 9), ("planet_index", .num 4),
          ("event_type", .str "defense")], 6⟩]
    ∧ (save_planet_events [] [.obj [("id", .num 9), ("planetIndex", .num 4),
        ("eventType", .str "defense")]] 6 none).1
      = [⟨.num 9, .num 4, .str "defense", .obj [("id", .num 9), ("planetIndex", .num 4),
          ("eventType", .str "defense")], 6⟩]
    ∧ save_planet_events [] ([] ++ (Json.obj [("id", .num 1)]) :: []) 6 none
        = save_planet_events [] ([] ++ []) 6 none := by
  obtain ⟨ha, hb, hc⟩ := c9_planet_event_naming (.num 9) (.num 4) (.str "defense")
    (.obj [("id", .num 1)]) [] [] [] 6 none (by decide) (by decide)
  exact ⟨ha, hb, hc rfl⟩

/-- C10: `get_upstream_status` is `true` exactly when the stored value
under `upstream_api_available` is the string `"true"`; in particular it
is `false` when no flag row exists. -/
theorem c10_upstream_status (store : List SystemStatusRow) :
    (get_upstream_status store false = true ↔
      get_system_status store "upstream_api_available" false = some "true")
    ∧ (get_system_status store "upstream_api_available" false = none →
        get_upstream_status store false = false) := by
  constructor
  · unfold get_upstream_status
    cases h : get_system_status store "upstream_api_available" false with
    | none => simp
    | some s => by_cases hs : s = "" <;> simp [hs]
  · intro h
    unfold get_upstream_status
    rw [h]

/-- C10, witness: a stored `"true"` flag reads back `true`; an empty
store reads back `false`. -/
theorem c10_witness :
    get_upstream_status [⟨"upstream_api_available", some "true", 0⟩] false = true
    ∧ get_upstream_status [] false = false :=
  ⟨(c10_upstream_status [⟨"upstream_api_available", some "true", 0⟩]).1.mpr rfl,
   (c10_upstream_status []).2 rfl⟩
